import Mathlib

/-!
Verification of the knowledge ingestion and retrieval pipeline
(`knowledge` tool of the tools repository).

The Go sources are shallowly embedded as executable Lean definitions:
pure functions become Lean functions, database / vector-store state is
threaded explicitly through a `SysState` record, fallible operations
return `Except GoErr`.  Float32 similarity scores are modelled as
rationals (the code only compares them) and embedding vectors as
`List Int` (the code only copies and compares them).  Collaborators that
are linked from other packages of the same repository but whose sources
are not part of this slice (filetype detection, ingestion-flow defaults,
the deduplication registry, the embedding-provider registry) are passed
in as components of an explicit environment `Env`, so every theorem
quantifies over their behaviour.
-/

namespace Knowledge

/-- Metadata values are arbitrary scalars in Go (`map[string]any`); the
pipeline only ever stores strings and integer sizes in them. -/
inductive MetaValue
  | str (s : String)
  | int (n : Int)
  deriving DecidableEq, Repr

abbrev Metadata := List (String × MetaValue)

/-- Lookup of a metadata key (Go map indexing). -/
def metaLookup (m : Metadata) (k : String) : Option MetaValue :=
  (m.find? (fun kv => kv.1 == k)).map (fun kv => kv.2)

/-- Text rendering of a metadata value, as produced by the
`cmetadata ->> key` JSON text extraction used in SQL where clauses. -/
def MetaValue.text : MetaValue → String
  | .str s => s
  | .int n => toString n

/-- Textual metadata lookup, as seen by SQL metadata filters. -/
def metaText (m : Metadata) (k : String) : Option String :=
  (metaLookup m k).map MetaValue.text

/-- Set a metadata key, replacing an existing binding (Go map assignment). -/
def metaSet (m : Metadata) (k : String) (v : MetaValue) : Metadata :=
  if m.any (fun kv => kv.1 == k) then
    m.map (fun kv => if kv.1 == k then (k, v) else kv)
  else
    m ++ [(k, v)]

/-- vs.Document (pkg/vectorstore/types): one chunk as stored in and
retrieved from the vector store. -/
structure Document where
  ID : String
  Content : String
  Metadata : Metadata
  Embedding : List Int
  SimilarityScore : ℚ
  deriving DecidableEq, Repr

/-! ## Similarity postprocessor
(pkg/datastore/postprocessors/similarity.go) -/

/-- One per-dataset retrieval result (types.Response). -/
structure Response where
  ResultDocuments : List Document
  deriving DecidableEq, Repr

/-- types.RetrievalResponse: one entry per queried dataset. -/
structure RetrievalResponse where
  Responses : List Response
  deriving DecidableEq, Repr

/-- SimilarityPostprocessor (similarity.go lines 13-16). -/
structure SimilarityPostprocessor where
  Threshold : ℚ
  KeepMin : Int
  deriving DecidableEq, Repr

/-- The filtering loop of SimilarityPostprocessor.Transform
(similarity.go lines 21-31): the accumulator is the Go slice
`filteredDocs`; a document is appended when its score is at or above the
threshold, or when fewer than KeepMin documents have been kept so far. -/
def similarityFilterLoop (s : SimilarityPostprocessor) (acc : List Document) :
    List Document → List Document
  | [] => acc
  | doc :: rest =>
    if s.Threshold ≤ doc.SimilarityScore then
      similarityFilterLoop s (acc ++ [doc]) rest
    else if (acc.length : Int) < s.KeepMin then
      similarityFilterLoop s (acc ++ [doc]) rest
    else
      similarityFilterLoop s acc rest

/-- SimilarityPostprocessor.Transform (similarity.go lines 18-37): the
loop is applied to each per-dataset response independently; the Go
method always returns a nil error, so the embedding returns the
transformed response directly. -/
def SimilarityPostprocessor.Transform (s : SimilarityPostprocessor)
    (response : RetrievalResponse) : RetrievalResponse :=
  ⟨response.Responses.map (fun resp => ⟨similarityFilterLoop s [] resp.ResultDocuments⟩)⟩

/-- Specification-side description of the similarity filter: keep every
document at or above the threshold, plus the highest-ranked
below-threshold documents until the total kept reaches KeepMin or the
input is exhausted, never reordering. -/
def similarityKeepSpec (s : SimilarityPostprocessor) (docs : List Document) :
    List Document :=
  let above := docs.filter (fun d => s.Threshold ≤ d.SimilarityScore)
  let below := docs.filter (fun d => d.SimilarityScore < s.Threshold)
  above ++ below.take (s.KeepMin - above.length).toNat

/-- Descending order on similarity scores, the precondition the
postprocessor documents (similarity.go line 27 comment). -/
def sortedDescBySimilarity (docs : List Document) : Prop :=
  docs.Pairwise (fun a b => b.SimilarityScore ≤ a.SimilarityScore)

/-! ## Flow configuration validation (pkg/flows/config/config.go) -/

/-- ConverterConfig: only the fields Validate inspects. -/
structure ConverterConfig where
  Name : String
  TargetFormat : String
  deriving DecidableEq, Repr

/-- IngestionFlowConfig: only the fields Validate inspects. -/
structure IngestionFlowConfig where
  Filetypes : List String
  Converter : ConverterConfig
  deriving DecidableEq, Repr

/-- FlowConfigEntry: only the fields Validate inspects.  Retrieval is a
pointer in Go; only its nil-ness matters to validation. -/
structure FlowConfigEntry where
  Dflt : Bool
  Ingestion : List IngestionFlowConfig
  Retrieval : Option Unit
  deriving DecidableEq, Repr

/-- FlowConfig.Flows: the Go map is modelled as an association list (the
validation result does not depend on iteration order, as proved below). -/
structure FlowConfig where
  Flows : List (String × FlowConfigEntry)
  deriving DecidableEq, Repr

/-- Inner loop of FlowConfig.Validate over the ingestion entries of one
flow (config.go lines 156-168). -/
def validateIngestionEntries (name : String) : Nat → List IngestionFlowConfig → Option String
  | _, [] => none
  | idx, ing :: rest =>
    if ing.Filetypes.length == 0 then
      some (s!"flow {name}.ingestion.[{idx}] has no filetypes specified")
    else if ing.Converter.Name != "" && ing.Converter.TargetFormat == "" then
      some (s!"flow {name}.ingestion.[{idx}].converter.targetFormat is required")
    else
      validateIngestionEntries name (idx + 1) rest

/-- Outer loop of FlowConfig.Validate (config.go lines 140-170), with the
`hasDefault` flag threaded as an accumulator.  Returns the error message
or none. -/
def validateFlowsLoop (hasDefault : Bool) : List (String × FlowConfigEntry) → Option String
  | [] => none
  | (name, flow) :: rest =>
    if flow.Dflt && hasDefault then
      some "multiple flows are marked as default"
    else if flow.Ingestion.length == 0 && flow.Retrieval.isNone then
      some (s!"flow {name} has neither ingestion nor retrieval specified")
    else
      match validateIngestionEntries name 0 flow.Ingestion with
      | some e => some e
      | none => validateFlowsLoop (hasDefault || flow.Dflt) rest

/-- FlowConfig.Validate (config.go lines 140-170). -/
def FlowConfig.Validate (f : FlowConfig) : Option String :=
  validateFlowsLoop false f.Flows

/-- Specification-side validation condition: the four rules the spec
states, as one decidable proposition. -/
def flowConfigViolation (f : FlowConfig) : Prop :=
  1 < (f.Flows.filter (fun e => e.2.Dflt)).length
  ∨ (∃ e ∈ f.Flows, e.2.Ingestion = [] ∧ e.2.Retrieval = none)
  ∨ (∃ e ∈ f.Flows, ∃ ing ∈ e.2.Ingestion, ing.Filetypes = [])
  ∨ (∃ e ∈ f.Flows, ∃ ing ∈ e.2.Ingestion,
      ing.Converter.Name ≠ "" ∧ ing.Converter.TargetFormat = "")

instance (f : FlowConfig) : Decidable (flowConfigViolation f) := by
  unfold flowConfigViolation
  infer_instance

/-! ## Data model of the ingest orchestrator (pkg/datastore, part_003) -/

/-- Error taxonomy of the ingest path.  Each constructor corresponds to
one return-with-error site of Datastore.Ingest or of the vector store;
the Go code builds these with fmt.Errorf, wrapping a dedicated error
type only for the unsupported-filetype case
(documentloader.UnsupportedFileTypeError, part_003 line 160). -/
inductive GoErr
  | filenameRequired
  | datasetNotFound (id : String)
  | mismatchingEmbeddingConfigs
  | unknownDedupFunc (name : String)
  | dedupCheckFailed
  | filetypeDetectionFailed (msg : String)
  | fillDefaultsFailed (msg : String)
  | unsupportedFileType (filetype : String) (file : String)
  | ingestionFlowFailed (file : String)
  | collectionNotFound (c : String)
  | addDocumentsFailed (file : String)
  | loaderFailed (msg : String)
  | otherErr (msg : String)
  deriving DecidableEq, Repr

/-- embeddings.EmbeddingModelProviderConfig: a provider type plus the
embedding model name derivable from its config blob. -/
structure EmbeddingConfig where
  ProviderType : String
  Model : String
  deriving DecidableEq, Repr

/-- The embedding model provider as seen by Ingest: Name(),
EmbeddingModelName() and the UseEmbeddingModel mutation, modelled as a
record update. -/
structure EmbeddingProvider where
  Name : String
  Model : String
  deriving DecidableEq, Repr

/-- index/types.Dataset: the fields Ingest touches. -/
structure Dataset where
  ID : String
  EmbeddingsProviderConfig : Option EmbeddingConfig
  deriving DecidableEq, Repr

/-- index/types.Document: one chunk row of the metadata index. -/
structure DBDocument where
  ID : String
  FileID : String
  Dataset : String
  Index : Nat
  deriving DecidableEq, Repr

/-- index/types.FileMetadata. -/
structure FileMetadata where
  Name : String
  AbsolutePath : String
  Size : Int
  ModifiedAt : Int
  deriving DecidableEq, Repr

/-- index/types.File: one ingested source artifact in the index. -/
structure DBFile where
  ID : String
  Dataset : String
  Documents : List DBDocument
  FileMeta : FileMetadata
  deriving DecidableEq, Repr

/-- One row of the pgvector embedding table: the owning collection
(dataset) plus the stored document. -/
structure VSRow where
  Collection : String
  Doc : Document
  deriving DecidableEq, Repr

/-- The pgvector store state: the set of existing collections and the
rows of the embedding table. -/
structure VectorStore where
  Collections : List String
  Rows : List VSRow
  deriving DecidableEq, Repr

/-- The persistent state Ingest reads and writes: the datasets and files
of the metadata index, and the vector store. -/
structure SysState where
  Datasets : List Dataset
  Files : List DBFile
  VS : VectorStore
  deriving DecidableEq, Repr

/-- The Datastore configuration Ingest mutates (UseEmbeddingModel,
part_003 line 85). -/
structure Datastore where
  EmbeddingModelProvider : EmbeddingProvider
  deriving DecidableEq, Repr

/-! ## Vector store operations (pkg/vectorstore/pgvector/pgvector.go) -/

/-- Matching of a `where` metadata filter, as compiled by
buildWhereClause: every pair requires `cmetadata ->> key = value`. -/
def whereMatch (w : List (String × String)) (d : Document) : Bool :=
  w.all (fun kv => metaText d.Metadata kv.1 == some kv.2)

/-- Matching of a `whereDocument` content filter (chromem-go
WhereDocumentOperatorEquals entries): the document content must equal
every given value. -/
def whereDocMatch (wd : List String) (d : Document) : Bool :=
  wd.all (fun c => d.Content == c)

/-- VectorStore.RemoveDocument (pgvector.go lines 462-493): fails when
the collection does not exist; is a no-op when the collection holds no
rows; with a non-empty `where` filter deletes every row of the
collection matching the filter, else deletes by document ID. -/
def VectorStore.RemoveDocument (v : VectorStore) (documentID collection : String)
    (w : List (String × String)) : Except GoErr VectorStore :=
  if v.Collections.contains collection then
    if (v.Rows.filter (fun r => r.Collection == collection)).length == 0 then
      .ok v
    else if w.length != 0 then
      .ok { v with Rows :=
              (v.Rows.filter (fun r => !(r.Collection == collection && whereMatch w r.Doc))) }
    else
      .ok { v with Rows :=
              (v.Rows.filter (fun r => !(r.Collection == collection && r.Doc.ID == documentID))) }
  else
    .error (.collectionNotFound collection)

/-- VectorStore.AddDocuments (pgvector.go lines 278-366): fails when the
collection does not exist; stores each document, invoking the embedding
function exactly for the documents whose Embedding field is empty
(lines 328-338); returns the stored IDs.  The model additionally
returns the list of contents that were embedded, the ghost trace used to
state the embedding-reuse property. -/
def VectorStore.AddDocuments (v : VectorStore) (embed : String → List Int)
    (docs : List Document) (collection : String) :
    Except GoErr (List String × VectorStore × List String) :=
  if v.Collections.contains collection then
    let newRows := docs.map (fun d =>
      ⟨collection, { d with Embedding := if d.Embedding.isEmpty then embed d.Content else d.Embedding }⟩)
    .ok (docs.map (fun d => d.ID),
         { v with Rows := v.Rows ++ newRows },
         (docs.filter (fun d => d.Embedding.isEmpty)).map (fun d => d.Content))
  else
    .error (.collectionNotFound collection)

/-- VectorStore.GetDocuments (pgvector.go lines 513-561): with an empty
collection name the query runs over all collections; otherwise the
collection must exist and rows are restricted to it. -/
def VectorStore.GetDocuments (v : VectorStore) (collection : String)
    (w : List (String × String)) (wd : List String) : Except GoErr (List Document) :=
  if collection == "" then
    .ok ((v.Rows.filter (fun r => whereMatch w r.Doc && whereDocMatch wd r.Doc)).map (fun r => r.Doc))
  else if v.Collections.contains collection then
    .ok ((v.Rows.filter (fun r =>
        r.Collection == collection && whereMatch w r.Doc && whereDocMatch wd r.Doc)).map (fun r => r.Doc))
  else
    .error (.collectionNotFound collection)

/-! ## Ingestion flows (pkg/flows, sources outside this slice) -/

/-- flows.IngestionFlow: converter, loader, splitter and transformer
chain for one set of filetypes.  The component functions are modelled as
pure functions on document lists; the loader consumes the (possibly
converted) byte content. -/
structure IngestionFlow where
  Filetypes : List String
  Converter : Option (String → Except GoErr String)
  ConverterMustTry : Bool
  Load : Option (String → Except GoErr (List Document))
  Splitter : Option (List Document → Except GoErr (List Document))
  Transformations : List (List Document → Except GoErr (List Document))

/-- The zero value flows.IngestionFlow{} (part_003 line 149). -/
def IngestionFlow.empty : IngestionFlow :=
  ⟨[], none, false, none, none, []⟩

/-- IngestionFlow.SupportsFiletype: membership of the filetype in the
flow entry's filetype list. -/
def IngestionFlow.SupportsFiletype (f : IngestionFlow) (filetype : String) : Bool :=
  f.Filetypes.contains filetype

/-- Fail-fast application of the transformer chain (spec section 4.4:
the first transformer error aborts the remaining chain). -/
def applyTransformations : List (List Document → Except GoErr (List Document)) →
    List Document → Except GoErr (List Document)
  | [], docs => .ok docs
  | t :: rest, docs =>
    match t docs with
    | .error e => .error e
    | .ok docs2 => applyTransformations rest docs2

/-- The converter stage of a flow run: a failed optional converter is
skipped and the original bytes used, unless it is marked must-try (spec
section 4.5). -/
def runConverter (f : IngestionFlow) (content : String) : Except GoErr String :=
  match f.Converter with
  | none => .ok content
  | some cv =>
    match cv content with
    | .ok c2 => .ok c2
    | .error e => if f.ConverterMustTry then .error e else .ok content

/-- The splitter stage of a flow run. -/
def runSplitter (f : IngestionFlow) (rawDocs : List Document) :
    Except GoErr (List Document) :=
  match f.Splitter with
  | none => .ok rawDocs
  | some sp => sp rawDocs

/-- Modelled from the spec: IngestionFlow.Run (pkg/flows, not part of
this source slice) executes the optional converter (skipped on failure
unless marked must-try), then the loader, the splitter and the
transformer chain in order (spec section 4.5). -/
def IngestionFlow.Run (f : IngestionFlow) (content : String) :
    Except GoErr (List Document) :=
  match runConverter f content with
  | .error e => .error e
  | .ok c2 =>
    match f.Load with
    | none => .error (.loaderFailed "no loader configured")
    | some ld =>
      match ld c2 with
      | .error e => .error e
      | .ok rawDocs =>
        match runSplitter f rawDocs with
        | .error e => .error e
        | .ok chunks => applyTransformations f.Transformations chunks

/-- Modelled from the spec: the ExtraMetadata transformer
(pkg/datastore/transformers, not part of this source slice) merges its
metadata map into the metadata of each document; Ingest appends it as
the mandatory last transformation (part_003 lines 163-171). -/
def extraMetadataTransform (meta : Metadata) (docs : List Document) :
    Except GoErr (List Document) :=
  .ok (docs.map (fun d => { d with Metadata := meta.foldl (fun m kv => metaSet m kv.1 kv.2) d.Metadata }))

/-- Modelled from the spec: vs.SortAndEnsureDocIndex (pkg/vectorstore,
not part of this source slice) assigns contiguous chunk indices
reflecting split order and preserves the source order of the documents
(spec sections 4.3 and 4.7 step 5); as the vector-store document carries
no index field, the order-preserving pass is the identity here. -/
def sortAndEnsureDocIndex (docs : List Document) : List Document :=
  docs

/-! ## Ingest orchestrator (pkg/datastore, part_003) -/

/-- Signature of a deduplication policy (pkg/datastore dedup registry,
not part of this source slice): it may inspect the persistent state, the
dataset ID and the file metadata from the options and decides whether
the incoming file is a duplicate. -/
abbrev DedupFunc := SysState → String → FileMetadata → Except GoErr Bool

/-- Modelled from the spec: the default DedupeUpsert policy treats every
file as not-duplicate, relying on path-based replacement downstream
(spec section 4.6). -/
def dedupeUpsert : DedupFunc := fun _ _ _ => .ok false

/-- datastore.IngestOpts (part_003 lines 25-32).  FileMetadata is a
pointer in Go; every claim concerns calls that supply it, so it is
modelled as a plain field. -/
structure IngestOpts where
  FileMeta : FileMetadata
  IsDuplicateFuncName : String
  IsDuplicateFunc : Option DedupFunc
  IngestionFlows : List IngestionFlow
  ExtraMetadata : Metadata
  ReuseEmbeddings : Bool

/-- The collaborators of Ingest whose sources live outside this slice
(filetype detection, flow defaults, the dedup registry, the embedding
provider registry, the process environment, UUID generation and the
embedding capability), passed explicitly so the embedding stays pure. -/
structure Env where
  embed : String → String → List Int
  getFiletype : String → String → Except GoErr String
  fillDefaults : IngestionFlow → String → Except GoErr IngestionFlow
  isDuplicateFuncs : List (String × DedupFunc)
  requiredFieldsMatch : EmbeddingConfig → EmbeddingConfig → Bool
  preferNewModel : Bool
  strictCheck : Bool
  newFileID : String

/-- Index UpdateDataset (part_003 line 66): replace the dataset record
with the given ID. -/
def updateDataset (sts : List Dataset) (nds : Dataset) : List Dataset :=
  sts.map (fun d => if d.ID == nds.ID then nds else d)

/-- The embedding-configuration binding phase of Ingest (part_003 lines
54-95): attach the current provider config when the dataset has none;
on a model-name mismatch switch the provider to the dataset's model
unless KNOW_PREFER_NEW_EMBEDDING_MODEL is set; under
KNOW_STRICT_EMBEDDING_CONFIG_CHECK fail when the required fields of the
two configs differ.  Returns the possibly-updated dataset list, the
dataset record, and the possibly-updated datastore or the error. -/
def bindEmbeddingConfig (env : Env) (s : Datastore) (datasets : List Dataset)
    (datasetID : String) (ds : Dataset) :
    List Dataset × Dataset × Except GoErr Datastore :=
  let bound : List Dataset × Dataset :=
    match ds.EmbeddingsProviderConfig with
    | none =>
      let ncfg : EmbeddingConfig :=
        ⟨s.EmbeddingModelProvider.Name, s.EmbeddingModelProvider.Model⟩
      let nds : Dataset := ⟨datasetID, some ncfg⟩
      (updateDataset datasets nds, nds)
    | some _ => (datasets, ds)
  match bound.2.EmbeddingsProviderConfig with
  | none => (bound.1, bound.2, .ok s)
  | some cfg =>
    let dsProviderModel := cfg.Model
    let s2 : Datastore :=
      if s.EmbeddingModelProvider.Model != dsProviderModel && !env.preferNewModel then
        { s with EmbeddingModelProvider :=
            { s.EmbeddingModelProvider with Model := dsProviderModel } }
      else s
    if env.strictCheck &&
        !(env.requiredFieldsMatch
            ⟨s2.EmbeddingModelProvider.Name, s2.EmbeddingModelProvider.Model⟩
            ⟨cfg.ProviderType, cfg.Model⟩) then
      (bound.1, bound.2, .error .mismatchingEmbeddingConfigs)
    else
      (bound.1, bound.2, .ok s2)

/-- Resolution of the deduplication policy (part_003 lines 97-107): a
non-empty name is looked up in the registry (unknown names fail), an
injected function is used next, and DedupeUpsert is the default. -/
def resolveIsDuplicate (env : Env) (opts : IngestOpts) : Except GoErr DedupFunc :=
  if opts.IsDuplicateFuncName != "" then
    match env.isDuplicateFuncs.find? (fun p => p.1 == opts.IsDuplicateFuncName) with
    | none => .error (.unknownDedupFunc opts.IsDuplicateFuncName)
    | some p => .ok p.2
  else
    match opts.IsDuplicateFunc with
    | some f => .ok f
    | none => .ok dedupeUpsert

/-- The mandatory metadata map (part_003 lines 164-169): filename,
absPath, fileSize and embeddingModel, then the caller's extra metadata
added only for keys not already present. -/
def buildMetadata (filename : String) (fm : FileMetadata) (model : String)
    (extra : Metadata) : Metadata :=
  let base : Metadata :=
    [("filename", .str filename), ("absPath", .str fm.AbsolutePath),
     ("fileSize", .int fm.Size), ("embeddingModel", .str model)]
  extra.foldl (fun m kv => if (metaLookup m kv.1).isSome then m else m ++ [kv]) base

/-- Modelled from the spec: Datastore.GetDatasetForDocument (not part of
this source slice) resolves the dataset owning a document ID through the
metadata index. -/
def getDatasetForDocument (st : SysState) (docID : String) : Option Dataset :=
  match st.Files.findSome? (fun f => f.Documents.find? (fun d => d.ID == docID)) with
  | none => none
  | some d => st.Datasets.find? (fun ds => ds.ID == d.Dataset)

/-- The inner scan of the embedding-reuse loop (part_003 lines 225-254):
walk the content-identical existing documents; a document carrying
embeddingModel metadata donates its embedding when the value equals the
configured model name and is skipped otherwise; a document without that
metadata key donates when its owning dataset's bound config has the
configured model name. -/
def reuseScan (model : String) (st : SysState) : List Document → Option (List Int)
  | [] => none
  | ed :: rest =>
    match metaLookup ed.Metadata "embeddingModel" with
    | some v =>
      if v == MetaValue.str model then some ed.Embedding
      else reuseScan model st rest
    | none =>
      match getDatasetForDocument st ed.ID with
      | none => reuseScan model st rest
      | some dsx =>
        match dsx.EmbeddingsProviderConfig with
        | none => reuseScan model st rest
        | some cfg =>
          if cfg.Model == model then some ed.Embedding
          else reuseScan model st rest

/-- The reusable embedding found for one chunk, if any: query the store
across all collections for content-identical documents (a failed query
is skipped) and scan them (part_003 lines 208-221). -/
def reuseScanResult (model : String) (st : SysState) (d : Document) : Option (List Int) :=
  match st.VS.GetDocuments "" [] [d.Content] with
  | .error _ => none
  | .ok exDocs => reuseScan model st exDocs

/-- The per-chunk embedding-reuse step: copy the found embedding onto
the chunk, else leave the chunk unchanged. -/
def reuseOne (model : String) (st : SysState) (d : Document) : Document :=
  match reuseScanResult model st d with
  | some vec => { d with Embedding := vec }
  | none => d

/-- The embedding-reuse loop (part_003 lines 207-255): for each new
chunk, query the store (across all collections) for content-identical
documents and copy the first reusable embedding onto the chunk. -/
def reuseEmbeddings (model : String) (st : SysState) (docs : List Document) :
    List Document :=
  docs.map (reuseOne model st)

/-- The full result of one Ingest call: the returned value (document IDs
or nil), the datastore (whose provider UseEmbeddingModel may have
switched), the persistent state, and the ghost trace of contents the
embedding capability was invoked on. -/
structure IngestOutcome where
  ret : Except GoErr (Option (List String))
  store : Datastore
  state : SysState
  embedded : List String

/-- The commit tail of Ingest (part_003 lines 183-305): replace the
previously stored documents of the same absolute path, optionally reuse
embeddings, commit the chunks to the vector store and record the file
and its documents in the index. -/
def ingestCommitPhase (env : Env) (s1 : Datastore) (st1 : SysState)
    (datasetID filename : String) (opts : IngestOpts)
    (docs1 : List Document) : IngestOutcome :=
  match st1.VS.RemoveDocument "" datasetID [("absPath", opts.FileMeta.AbsolutePath)] with
  | .error e => ⟨.error e, s1, st1, []⟩
  | .ok vs2 =>
    let st2 : SysState := { st1 with VS := vs2 }
    let docs2 := if opts.ReuseEmbeddings then reuseEmbeddings s1.EmbeddingModelProvider.Model st2 docs1 else docs1
    match vs2.AddDocuments (env.embed s1.EmbeddingModelProvider.Model) docs2 datasetID with
    | .error _ => ⟨.error (.addDocumentsFailed opts.FileMeta.AbsolutePath), s1, st2, []⟩
    | .ok (docIDs, vs3, embeddedContents) =>
      let dbDocs := docIDs.enum.map (fun p => DBDocument.mk p.2 env.newFileID datasetID p.1)
      let dbFile : DBFile := ⟨env.newFileID, datasetID, dbDocs,
        ⟨filename, opts.FileMeta.AbsolutePath, opts.FileMeta.Size, opts.FileMeta.ModifiedAt⟩⟩
      let st3 : SysState := { st2 with VS := vs3, Files := st2.Files ++ [dbFile] }
      ⟨.ok (some docIDs), s1, st3, embeddedContents⟩

/-- The pipeline the resolved flow runs: the mandatory metadata
transformer is appended last (part_003 lines 163-171) and the flow is
executed on the content. -/
def runResolvedFlow (flow1 : IngestionFlow) (filename : String)
    (fm : FileMetadata) (model : String) (extra : Metadata)
    (content : String) : Except GoErr (List Document) :=
  let meta := buildMetadata filename fm model extra
  IngestionFlow.Run
    { flow1 with Transformations := flow1.Transformations ++ [extraMetadataTransform meta] }
    content

/-- The tail of Ingest from flow resolution onwards (part_003 lines
143-305): resolve the ingestion flow, fail on a missing loader with
UnsupportedFileTypeError, run the pipeline, stop successfully on zero
chunks, then commit. -/
def ingestFlowPhase (env : Env) (s1 : Datastore) (st1 : SysState)
    (datasetID filename content : String) (opts : IngestOpts)
    (filetype : String) : IngestOutcome :=
  let flow0 := (opts.IngestionFlows.find? (fun fl => fl.SupportsFiletype filetype)).getD IngestionFlow.empty
  match env.fillDefaults flow0 filetype with
  | .error e => ⟨.error e, s1, st1, []⟩
  | .ok flow1 =>
    if flow1.Load.isNone then
      ⟨.error (.unsupportedFileType filetype opts.FileMeta.AbsolutePath), s1, st1, []⟩
    else
      match runResolvedFlow flow1 filename opts.FileMeta s1.EmbeddingModelProvider.Model opts.ExtraMetadata content with
      | .error _ => ⟨.error (.ingestionFlowFailed filename), s1, st1, []⟩
      | .ok docs0 =>
        if docs0.isEmpty then ⟨.ok none, s1, st1, []⟩
        else
          ingestCommitPhase env s1 st1 datasetID filename opts (sortAndEnsureDocIndex docs0)

/-- Datastore.Ingest (part_003 lines 35-305): filename check, dataset
lookup (no auto-creation), embedding-config binding, dedup resolution,
filetype detection, duplicate short-circuit, then the flow phase. -/
def Datastore.Ingest (env : Env) (s : Datastore) (st : SysState)
    (datasetID filename content : String) (opts : IngestOpts) : IngestOutcome :=
  if filename == "" then ⟨.error .filenameRequired, s, st, []⟩
  else
    match st.Datasets.find? (fun d => d.ID == datasetID) with
    | none => ⟨.error (.datasetNotFound datasetID), s, st, []⟩
    | some ds =>
      match bindEmbeddingConfig env s st.Datasets datasetID ds with
      | (datasets1, _, r) =>
        let st1 : SysState := { st with Datasets := datasets1 }
        match r with
        | .error e => ⟨.error e, s, st1, []⟩
        | .ok s1 =>
          match resolveIsDuplicate env opts with
          | .error e => ⟨.error e, s1, st1, []⟩
          | .ok isDuplicate =>
            match env.getFiletype filename content with
            | .error e => ⟨.error e, s1, st1, []⟩
            | .ok filetype =>
              match isDuplicate st1 datasetID opts.FileMeta with
              | .error _ => ⟨.error .dedupCheckFailed, s1, st1, []⟩
              | .ok true => ⟨.ok none, s1, st1, []⟩
              | .ok false =>
                ingestFlowPhase env s1 st1 datasetID filename content opts filetype

/-- Modelled from the spec: the per-file wrapper of the ingestion client
(client.IngestPaths, not part of this source slice) treats an
UnsupportedFileTypeError returned by Ingest as a skip with no document
IDs and no error, unless the caller set ErrOnUnsupportedFile, in which
case the error is propagated (spec sections 4.7 step 4 and 7;
ClientIngest.run wires the ErrOnUnsupportedFile option through). -/
def clientIngestFile (errOnUnsupportedFile : Bool)
    (r : Except GoErr (Option (List String))) : Except GoErr (Option (List String)) :=
  match r with
  | .error (.unsupportedFileType ft file) =>
    if errOnUnsupportedFile then .error (.unsupportedFileType ft file) else .ok none
  | x => x

/-- The rows a dataset holds for one absolute path: the quantity the
replace-semantics and idempotence claims are about. -/
def rowsForPath (v : VectorStore) (collection path : String) : List VSRow :=
  v.Rows.filter (fun r =>
    r.Collection == collection && metaText r.Doc.Metadata "absPath" == some path)

/-! ## Concrete fixtures used to instantiate the theorems -/

/-- A file metadata record for a small text file. -/
def fmA : FileMetadata := ⟨"a.txt", "/ws/a.txt", 3, 0⟩

/-- An embedding provider configuration fixture. -/
def cfgA : EmbeddingConfig := ⟨"openai", "m1"⟩

/-- A dataset fixture with a bound embedding config. -/
def dsA : Dataset := ⟨"d", some cfgA⟩

/-- A system state fixture: one dataset, its collection, no rows. -/
def stA : SysState := ⟨[dsA], [], ⟨["d"], []⟩⟩

/-- A datastore fixture whose provider matches the dataset config. -/
def storeA : Datastore := ⟨⟨"openai", "m1"⟩⟩

/-- A loader fixture producing one chunk holding the whole content. -/
def loaderOne : String → Except GoErr (List Document) :=
  fun c => .ok [⟨"c0", c, [], [], 0⟩]

/-- A loader fixture producing no chunks at all. -/
def loaderEmpty : String → Except GoErr (List Document) :=
  fun _ => .ok []

/-- A deduplication policy fixture that marks every file a duplicate. -/
def alwaysDup : DedupFunc := fun _ _ _ => .ok true

/-- An environment fixture whose flow defaults install loaderOne. -/
def envLoad : Env :=
  ⟨fun _ c => [(c.length : Int)], fun _ _ => .ok "text",
   fun f _ => .ok { f with Load := some loaderOne },
   [("always", alwaysDup)], fun _ _ => true, false, false, "fid"⟩

/-- An environment fixture whose flow defaults install no loader. -/
def envNoLoad : Env := { envLoad with fillDefaults := fun f _ => .ok f }

/-- An environment fixture whose flow defaults install loaderEmpty. -/
def envEmptyLoad : Env :=
  { envLoad with fillDefaults := fun f _ => .ok { f with Load := some loaderEmpty } }

/-- Plain ingest options: no dedup, no custom flows, no extra metadata. -/
def optsPlain : IngestOpts := ⟨fmA, "", none, [], [], false⟩

/-- Ingest options selecting the always-duplicate policy by name. -/
def optsDup : IngestOpts := { optsPlain with IsDuplicateFuncName := "always" }

/-- Plain ingest options with embedding reuse enabled. -/
def optsReuse : IngestOpts := { optsPlain with ReuseEmbeddings := true }

/-- A stored row under a different absolute path whose content matches
the loaderOne chunk and whose metadata carries the configured model. -/
def rowB : VSRow :=
  ⟨"d", ⟨"old1", "abc",
    [("absPath", .str "/ws/b.txt"), ("embeddingModel", .str "m1")], [42], 0⟩⟩

/-- A system state fixture holding rowB in the d collection. -/
def stB : SysState := ⟨[dsA], [], ⟨["d"], [rowB]⟩⟩

/-! ## Theorems: similarity postprocessor -/

theorem similarityFilterLoop_all_above (s : SimilarityPostprocessor) :
    ∀ (A B acc : List Document), (∀ d ∈ A, s.Threshold ≤ d.SimilarityScore) →
    similarityFilterLoop s acc (A ++ B) = similarityFilterLoop s (acc ++ A) B := by
  intro A
  induction A with
  | nil => intro B acc _; simp
  | cons d rest ih =>
    intro B acc h
    show similarityFilterLoop s acc (d :: (rest ++ B)) = _
    simp only [similarityFilterLoop]
    rw [if_pos (h d (List.mem_cons_self d rest))]
    rw [ih B (acc ++ [d]) (fun x hx => h x (List.mem_cons_of_mem d hx))]
    simp

theorem similarityFilterLoop_all_below (s : SimilarityPostprocessor) :
    ∀ (B acc : List Document), (∀ d ∈ B, d.SimilarityScore < s.Threshold) →
    similarityFilterLoop s acc B = acc ++ B.take (s.KeepMin - acc.length).toNat := by
  intro B
  induction B with
  | nil => intro acc _; simp [similarityFilterLoop]
  | cons d rest ih =>
    intro acc h
    have hd : ¬ s.Threshold ≤ d.SimilarityScore :=
      not_le.mpr (h d (List.mem_cons_self d rest))
    simp only [similarityFilterLoop, if_neg hd]
    by_cases hlen : (acc.length : Int) < s.KeepMin
    · rw [if_pos hlen, ih (acc ++ [d]) (fun x hx => h x (List.mem_cons_of_mem d hx))]
      have hk : (s.KeepMin - acc.length).toNat = (s.KeepMin - ((acc ++ [d]).length : Int)).toNat + 1 := by
        simp only [List.length_append, List.length_cons, List.length_nil]
        omega
      rw [hk, List.take_succ_cons]
      simp
    · rw [if_neg hlen, ih acc (fun x hx => h x (List.mem_cons_of_mem d hx))]
      have hz : (s.KeepMin - acc.length).toNat = 0 := by omega
      rw [hz]
      simp

theorem sorted_dropWhile_below (s : SimilarityPostprocessor) :
    ∀ docs : List Document, sortedDescBySimilarity docs →
    ∀ d ∈ docs.dropWhile (fun x => decide (s.Threshold ≤ x.SimilarityScore)),
      d.SimilarityScore < s.Threshold := by
  intro docs
  induction docs with
  | nil => intro _ d hd; simp [List.dropWhile] at hd
  | cons x rest ih =>
    intro hsort d hd
    rw [sortedDescBySimilarity, List.pairwise_cons] at hsort
    rw [List.dropWhile_cons] at hd
    by_cases hx : s.Threshold ≤ x.SimilarityScore
    · rw [if_pos (by simpa using hx)] at hd
      exact ih hsort.2 d hd
    · rw [if_neg (by simpa using hx)] at hd
      rcases List.mem_cons.mp hd with h | h
      · subst h; exact not_le.mp hx
      · exact lt_of_le_of_lt (hsort.1 d h) (not_le.mp hx)

theorem similarityFilterLoop_sorted_eq_spec (s : SimilarityPostprocessor)
    (docs : List Document) (hsort : sortedDescBySimilarity docs) :
    similarityFilterLoop s [] docs = similarityKeepSpec s docs := by
  classical
  set P : Document → Bool := fun x => decide (s.Threshold ≤ x.SimilarityScore) with hP
  have hsplit : docs = docs.takeWhile P ++ docs.dropWhile P :=
    (List.takeWhile_append_dropWhile (p := P) (l := docs)).symm
  have habove : ∀ d ∈ docs.takeWhile P, s.Threshold ≤ d.SimilarityScore := by
    intro d hd
    have := List.mem_takeWhile_imp hd
    simpa [hP] using this
  have hbelow : ∀ d ∈ docs.dropWhile P, d.SimilarityScore < s.Threshold :=
    sorted_dropWhile_below s docs hsort
  have hfilter_above : docs.filter P = docs.takeWhile P := by
    conv_lhs => rw [hsplit]
    rw [List.filter_append]
    rw [List.filter_eq_self.mpr (fun d hd => by simpa [hP] using habove d hd)]
    rw [List.filter_eq_nil_iff.mpr (fun d hd => by simpa [hP] using not_le.mpr (hbelow d hd))]
    simp
  have hfilter_below : docs.filter (fun d => decide (d.SimilarityScore < s.Threshold)) = docs.dropWhile P := by
    conv_lhs => rw [hsplit]
    rw [List.filter_append]
    rw [List.filter_eq_nil_iff.mpr (fun d hd => by simpa using not_lt.mpr (habove d hd))]
    rw [List.filter_eq_self.mpr (fun d hd => by simpa using hbelow d hd)]
    simp
  calc similarityFilterLoop s [] docs
      = similarityFilterLoop s ([] ++ docs.takeWhile P) (docs.dropWhile P) := by
        conv_lhs => rw [hsplit]
        exact similarityFilterLoop_all_above s (docs.takeWhile P) (docs.dropWhile P) [] habove
    _ = docs.takeWhile P ++ (docs.dropWhile P).take (s.KeepMin - (docs.takeWhile P).length).toNat := by
        rw [List.nil_append]
        exact similarityFilterLoop_all_below s (docs.dropWhile P) (docs.takeWhile P) hbelow
    _ = similarityKeepSpec s docs := by
        rw [similarityKeepSpec]
        rw [hfilter_above, hfilter_below]

/-- Concrete document used in the worked similarity example. -/
def scoreDoc (q : ℚ) : Document := ⟨"", "", [], [], q⟩

/-- C1: on per-dataset responses sorted descending by similarity score,
Transform keeps, per response independently and in order, exactly every
document at or above the threshold plus the highest-ranked
below-threshold documents until the total kept reaches KeepMin; on
scores 0.9, 0.7, 0.5, 0.3, 0.1 with threshold 0.6, KeepMin 3 yields the
first three and KeepMin 1 the first two. -/
theorem similarity_postprocessor_transform_correct :
    (∀ (s : SimilarityPostprocessor) (response : RetrievalResponse),
      (∀ resp ∈ response.Responses, sortedDescBySimilarity resp.ResultDocuments) →
      s.Transform response =
        ⟨response.Responses.map (fun resp => ⟨similarityKeepSpec s resp.ResultDocuments⟩)⟩)
    ∧ SimilarityPostprocessor.Transform ⟨6/10, 3⟩
        ⟨[⟨[scoreDoc (9/10), scoreDoc (7/10), scoreDoc (5/10), scoreDoc (3/10), scoreDoc (1/10)]⟩]⟩ =
        ⟨[⟨[scoreDoc (9/10), scoreDoc (7/10), scoreDoc (5/10)]⟩]⟩
    ∧ SimilarityPostprocessor.Transform ⟨6/10, 1⟩
        ⟨[⟨[scoreDoc (9/10), scoreDoc (7/10), scoreDoc (5/10), scoreDoc (3/10), scoreDoc (1/10)]⟩]⟩ =
        ⟨[⟨[scoreDoc (9/10), scoreDoc (7/10)]⟩]⟩ := by
  refine ⟨?_,
    by norm_num [SimilarityPostprocessor.Transform, similarityFilterLoop, scoreDoc],
    by norm_num [SimilarityPostprocessor.Transform, similarityFilterLoop, scoreDoc]⟩
  intro s response hsort
  rw [SimilarityPostprocessor.Transform]
  congr 1
  apply List.map_congr_left
  intro resp hresp
  rw [similarityFilterLoop_sorted_eq_spec s resp.ResultDocuments (hsort resp hresp)]

/-- Witness instantiating the sortedness hypothesis of C1 at the worked
example. -/
theorem similarity_postprocessor_transform_correct_witness :
    SimilarityPostprocessor.Transform ⟨6/10, 3⟩
        ⟨[⟨[scoreDoc (9/10), scoreDoc (7/10), scoreDoc (5/10), scoreDoc (3/10), scoreDoc (1/10)]⟩]⟩ =
      ⟨[⟨similarityKeepSpec ⟨6/10, 3⟩
          [scoreDoc (9/10), scoreDoc (7/10), scoreDoc (5/10), scoreDoc (3/10), scoreDoc (1/10)]⟩]⟩ :=
  similarity_postprocessor_transform_correct.1 ⟨6/10, 3⟩
    ⟨[⟨[scoreDoc (9/10), scoreDoc (7/10), scoreDoc (5/10), scoreDoc (3/10), scoreDoc (1/10)]⟩]⟩
    (by intro resp hresp
        simp only [List.mem_singleton] at hresp
        subst hresp
        rw [sortedDescBySimilarity]
        norm_num [List.pairwise_cons, scoreDoc])

end Knowledge

namespace Knowledge

/-! ## Theorems: flow configuration validation -/

theorem validateIngestionEntries_none_iff (name : String) :
    ∀ (idx : Nat) (l : List IngestionFlowConfig),
    validateIngestionEntries name idx l = none ↔
      ∀ ing ∈ l, ing.Filetypes ≠ [] ∧
        (ing.Converter.Name ≠ "" → ing.Converter.TargetFormat ≠ "") := by
  intro idx l
  induction l generalizing idx with
  | nil => simp [validateIngestionEntries]
  | cons ing rest ih =>
    simp only [validateIngestionEntries, List.mem_cons, forall_eq_or_imp]
    by_cases h1 : ing.Filetypes.length == 0
    · rw [if_pos h1]
      simp only [beq_iff_eq, List.length_eq_zero] at h1
      simp [h1]
    · rw [if_neg h1]
      simp only [beq_iff_eq, List.length_eq_zero] at h1
      by_cases h2 : ing.Converter.Name != "" && ing.Converter.TargetFormat == ""
      · rw [if_pos h2]
        simp only [Bool.and_eq_true, bne_iff_ne, beq_iff_eq] at h2
        simp [h1, h2.1, h2.2]
      · rw [if_neg h2]
        simp only [Bool.and_eq_true, bne_iff_ne, beq_iff_eq, not_and] at h2
        rw [ih (idx + 1)]
        constructor
        · intro h
          exact ⟨⟨h1, fun hn => by
            by_cases ht : ing.Converter.TargetFormat = ""
            · exact absurd ht (by intro ht2; exact (h2 (by exact hn)) ht2)
            · exact ht⟩, h⟩
        · intro h
          exact h.2

theorem validateFlowsLoop_none_iff :
    ∀ (l : List (String × FlowConfigEntry)) (hasDefault : Bool),
    validateFlowsLoop hasDefault l = none ↔
      ((l.filter (fun e => e.2.Dflt)).length + (if hasDefault then 1 else 0) ≤ 1
       ∧ ∀ e ∈ l, (e.2.Ingestion ≠ [] ∨ e.2.Retrieval ≠ none)
         ∧ ∀ ing ∈ e.2.Ingestion, ing.Filetypes ≠ [] ∧
             (ing.Converter.Name ≠ "" → ing.Converter.TargetFormat ≠ "")) := by
  intro l
  induction l with
  | nil =>
    intro hasDefault
    simp only [validateFlowsLoop, List.filter_nil, List.length_nil, Nat.zero_add,
      List.not_mem_nil, false_implies, implies_true, and_true, true_iff]
    cases hasDefault <;> simp
  | cons p rest ih =>
    intro hasDefault
    obtain ⟨name, flow⟩ := p
    simp only [validateFlowsLoop]
    by_cases hdef : flow.Dflt && hasDefault
    · rw [if_pos hdef]
      simp only [Bool.and_eq_true] at hdef
      constructor
      · intro h; exact absurd h (by simp)
      · rintro ⟨hc, -⟩
        exfalso
        have h1 : (if hasDefault then 1 else 0) = 1 := by simp [hdef.2]
        rw [List.filter_cons_of_pos (by simp [hdef.1]), h1] at hc
        simp only [List.length_cons] at hc
        omega
    · rw [if_neg hdef]
      have harith : (List.filter (fun e => e.2.Dflt) ((name, flow) :: rest)).length
            + (if hasDefault then 1 else 0)
          = (List.filter (fun e => e.2.Dflt) rest).length
            + (if (hasDefault || flow.Dflt) then 1 else 0) := by
        by_cases hfd : flow.Dflt
        · have hhd : hasDefault = false := by
            cases hhd2 : hasDefault
            · rfl
            · exact absurd (by simp [hfd, hhd2]) hdef
          rw [List.filter_cons_of_pos (by simp [hfd])]
          simp [hfd, hhd]
        · rw [List.filter_cons_of_neg (by simp [hfd])]
          simp [hfd]
      by_cases hir : flow.Ingestion.length == 0 && flow.Retrieval.isNone
      · rw [if_pos hir]
        simp only [Bool.and_eq_true, beq_iff_eq, List.length_eq_zero,
          Option.isNone_iff_eq_none] at hir
        constructor
        · intro h; exact absurd h (by simp)
        · intro h
          exact absurd (h.2 (name, flow) (List.mem_cons_self _ _)).1
            (by simp [hir.1, hir.2])
      · rw [if_neg hir]
        simp only [Bool.and_eq_true, beq_iff_eq, List.length_eq_zero,
          Option.isNone_iff_eq_none, not_and] at hir
        cases hing : validateIngestionEntries name 0 flow.Ingestion with
        | some e =>
          constructor
          · intro h; exact absurd h (by simp)
          · intro h
            have hbad := (h.2 (name, flow) (List.mem_cons_self _ _)).2
            have hnone := (validateIngestionEntries_none_iff name 0 flow.Ingestion).mpr hbad
            rw [hing] at hnone
            exact absurd hnone (by simp)
        | none =>
          rw [ih (hasDefault || flow.Dflt)]
          have hinner := (validateIngestionEntries_none_iff name 0 flow.Ingestion).mp hing
          have hflowok : (flow.Ingestion ≠ [] ∨ flow.Retrieval ≠ none) := by
            by_cases hi : flow.Ingestion = []
            · exact Or.inr (hir hi)
            · exact Or.inl hi
          constructor
          · rintro ⟨hc, hq⟩
            refine ⟨by rw [harith]; exact hc, ?_⟩
            intro e he
            rcases List.mem_cons.mp he with he1 | he2
            · subst he1
              exact ⟨hflowok, hinner⟩
            · exact hq e he2
          · rintro ⟨hc, hq⟩
            rw [harith] at hc
            refine ⟨hc, ?_⟩
            intro e he
            exact hq e (List.mem_cons_of_mem _ he)

/-- C10: FlowConfig.Validate returns an error exactly when more than one
flow is marked default, or some flow has neither ingestion nor
retrieval, or some ingestion entry lists no filetypes, or some converter
is named without a target format; a config violating none of the rules
validates successfully. -/
theorem flowconfig_validate_error_iff (f : FlowConfig) :
    (f.Validate).isSome ↔ flowConfigViolation f := by
  have h := validateFlowsLoop_none_iff f.Flows false
  simp only [FlowConfig.Validate]
  rw [flowConfigViolation]
  constructor
  · intro hsome
    by_contra hviol
    push_neg at hviol
    have hnone : validateFlowsLoop false f.Flows = none := by
      rw [h]
      refine ⟨by simpa using hviol.1, ?_⟩
      intro e he
      refine ⟨?_, ?_⟩
      · by_cases hi : e.2.Ingestion = []
        · right
          intro hr
          exact hviol.2.1 e he hi hr
        · left; exact hi
      · intro ing hing
        refine ⟨?_, ?_⟩
        · intro hft
          exact hviol.2.2.1 e he ing hing hft
        · intro hn ht
          exact hviol.2.2.2 e he ing hing hn ht
    rw [hnone] at hsome
    exact absurd hsome (by simp)
  · intro hviol
    by_contra hsome
    have hnone : validateFlowsLoop false f.Flows = none := by
      cases hval : validateFlowsLoop false f.Flows
      · rfl
      · simp only [FlowConfig.Validate] at hsome
        rw [hval] at hsome
        exact absurd (by simp) hsome
    have hok := (h.mp hnone)
    rcases hviol with h1 | h2 | h3 | h4
    · have := hok.1
      simp at this
      omega
    · obtain ⟨e, he, hi, hr⟩ := h2
      rcases (hok.2 e he).1 with hx | hx
      · exact hx hi
      · exact hx hr
    · obtain ⟨e, he, ing, hing, hft⟩ := h3
      exact ((hok.2 e he).2 ing hing).1 hft
    · obtain ⟨e, he, ing, hing, hn, ht⟩ := h4
      exact ((hok.2 e he).2 ing hing).2 hn ht

end Knowledge

namespace Knowledge

/-! ## Theorems: ingest orchestrator, error and skip paths -/

/-- C8: Ingest with a dataset ID for which no dataset exists returns no
document IDs, fails with the dataset-not-found error, and leaves both
the datastore and all persisted state untouched (no auto-creation). -/
theorem ingest_dataset_not_found (env : Env) (s : Datastore) (st : SysState)
    (datasetID filename content : String) (opts : IngestOpts)
    (hfn : filename ≠ "")
    (hds : st.Datasets.find? (fun d => d.ID == datasetID) = none) :
    Datastore.Ingest env s st datasetID filename content opts =
      ⟨.error (.datasetNotFound datasetID), s, st, []⟩ := by
  rw [Datastore.Ingest, if_neg (by simpa using hfn), hds]

/-- Witness for C8 at a dataset ID absent from the fixture state. -/
theorem ingest_dataset_not_found_witness :
    Datastore.Ingest envLoad storeA stA "nope" "a.txt" "abc" optsPlain =
      ⟨.error (.datasetNotFound "nope"), storeA, stA, []⟩ :=
  ingest_dataset_not_found envLoad storeA stA "nope" "a.txt" "abc" optsPlain
    (by decide) (by decide)

theorem bindEmbeddingConfig_not_strict_ne_error (env : Env) (s : Datastore)
    (datasets : List Dataset) (datasetID : String) (ds : Dataset)
    (hstrict : env.strictCheck = false) :
    ∀ e, (bindEmbeddingConfig env s datasets datasetID ds).2.2 ≠ .error e := by
  intro e
  rw [bindEmbeddingConfig]
  cases hcfg : ds.EmbeddingsProviderConfig with
  | none => simp [hstrict, hcfg]
  | some cfg => simp [hstrict, hcfg]

theorem bindEmbeddingConfig_not_strict_ok (env : Env) (s : Datastore)
    (datasets : List Dataset) (datasetID : String) (ds : Dataset)
    (hstrict : env.strictCheck = false) :
    ∃ s1, (bindEmbeddingConfig env s datasets datasetID ds).2.2 = .ok s1 := by
  cases h : (bindEmbeddingConfig env s datasets datasetID ds).2.2 with
  | error e =>
    exact absurd h (bindEmbeddingConfig_not_strict_ne_error env s datasets datasetID ds hstrict e)
  | ok s1 => exact ⟨s1, rfl⟩

/-- C7: with a dataset-bound embedding config whose model name differs
from the configured provider, the binding phase of Ingest does not fail
outside strict mode: by default it switches the provider to the dataset
model, with the prefer-new override it keeps the new model, and an error
can only arise when the strict-check mode is on. -/
theorem ingest_embedding_mismatch_warn_not_fail (env : Env) (s : Datastore)
    (datasets : List Dataset) (datasetID : String) (ds : Dataset) (cfg : EmbeddingConfig)
    (hcfg : ds.EmbeddingsProviderConfig = some cfg)
    (hmm : s.EmbeddingModelProvider.Model ≠ cfg.Model) :
    (env.preferNewModel = false → env.strictCheck = false →
      bindEmbeddingConfig env s datasets datasetID ds =
        (datasets, ds, .ok { s with EmbeddingModelProvider :=
          { s.EmbeddingModelProvider with Model := cfg.Model } }))
    ∧ (env.preferNewModel = true → env.strictCheck = false →
      bindEmbeddingConfig env s datasets datasetID ds = (datasets, ds, .ok s))
    ∧ (∀ e, (bindEmbeddingConfig env s datasets datasetID ds).2.2 = .error e →
        env.strictCheck = true) := by
  refine ⟨?_, ?_, ?_⟩
  · intro hpref hstrict
    rw [bindEmbeddingConfig]
    simp [hcfg, hpref, hstrict, bne_iff_ne, hmm]
  · intro hpref hstrict
    rw [bindEmbeddingConfig]
    simp [hcfg, hpref, hstrict]
  · intro e herr
    by_contra hstrict
    rw [Bool.not_eq_true] at hstrict
    exact bindEmbeddingConfig_not_strict_ne_error env s datasets datasetID ds hstrict e herr

/-- Witness for C7: a provider on model m2 against a dataset bound to
m1, default settings; the binding switches the provider to m1. -/
theorem ingest_embedding_mismatch_warn_not_fail_witness :
    bindEmbeddingConfig envLoad ⟨⟨"openai", "m2"⟩⟩ [dsA] "d" dsA =
      ([dsA], dsA, .ok ⟨⟨"openai", "m1"⟩⟩) :=
  (ingest_embedding_mismatch_warn_not_fail envLoad ⟨⟨"openai", "m2"⟩⟩ [dsA] "d" dsA cfgA
    (by decide) (by decide)).1 rfl rfl

end Knowledge

namespace Knowledge

theorem bindEmbeddingConfig_same_model (env : Env) (s : Datastore)
    (datasets : List Dataset) (datasetID : String) (ds : Dataset) (cfg : EmbeddingConfig)
    (hcfg : ds.EmbeddingsProviderConfig = some cfg)
    (hsame : cfg.Model = s.EmbeddingModelProvider.Model)
    (hstrict : env.strictCheck = false) :
    bindEmbeddingConfig env s datasets datasetID ds = (datasets, ds, .ok s) := by
  rw [bindEmbeddingConfig]
  simp [hcfg, hsame, hstrict]

/-- C3: when the selected deduplication policy reports a duplicate,
Ingest returns no document IDs and no error, the vector store and the
file table of the index are untouched, and the embedding capability is
never invoked. -/
theorem ingest_duplicate_skip (env : Env) (s : Datastore) (st : SysState)
    (datasetID filename content : String) (opts : IngestOpts) (df : DedupFunc)
    (hfn : filename ≠ "")
    (hds : (st.Datasets.find? (fun d => d.ID == datasetID)).isSome)
    (hstrict : env.strictCheck = false)
    (hres : resolveIsDuplicate env opts = .ok df)
    (hdup : ∀ st2 d fm, df st2 d fm = .ok true)
    (hft : ∃ ft, env.getFiletype filename content = .ok ft) :
    (Datastore.Ingest env s st datasetID filename content opts).ret = .ok none
    ∧ (Datastore.Ingest env s st datasetID filename content opts).state.VS = st.VS
    ∧ (Datastore.Ingest env s st datasetID filename content opts).state.Files = st.Files
    ∧ (Datastore.Ingest env s st datasetID filename content opts).embedded = [] := by
  obtain ⟨ds, hds2⟩ := Option.isSome_iff_exists.mp hds
  obtain ⟨ft, hft2⟩ := hft
  obtain ⟨s1, hbind⟩ := bindEmbeddingConfig_not_strict_ok env s st.Datasets datasetID ds hstrict
  rcases hsplit : bindEmbeddingConfig env s st.Datasets datasetID ds with ⟨datasets1, ds1, r⟩
  rw [hsplit] at hbind
  simp only at hbind
  subst hbind
  simp only [Datastore.Ingest]
  rw [if_neg (by simpa using hfn)]
  simp only [hds2, hsplit, hres, hft2, hdup]
  exact ⟨trivial, trivial, trivial, trivial⟩

/-- Witness for C3: the always-duplicate policy selected by name on the
fixture state; the call is a successful no-op. -/
theorem ingest_duplicate_skip_witness :
    (Datastore.Ingest envLoad storeA stA "d" "a.txt" "abc" optsDup).ret = .ok none
    ∧ (Datastore.Ingest envLoad storeA stA "d" "a.txt" "abc" optsDup).state.VS = stA.VS
    ∧ (Datastore.Ingest envLoad storeA stA "d" "a.txt" "abc" optsDup).state.Files = stA.Files
    ∧ (Datastore.Ingest envLoad storeA stA "d" "a.txt" "abc" optsDup).embedded = [] :=
  ingest_duplicate_skip envLoad storeA stA "d" "a.txt" "abc" optsDup alwaysDup
    (by decide) (by decide) rfl rfl (fun _ _ _ => rfl) ⟨"text", rfl⟩

/-- C4: when no flow resolves a loader for the detected filetype, Ingest
itself fails with the UnsupportedFileTypeError; the ingestion client
propagates it when ErrOnUnsupportedFile is set and turns it into a skip
with no IDs and no error otherwise. -/
theorem ingest_unsupported_filetype (env : Env) (s : Datastore) (st : SysState)
    (datasetID filename content : String) (opts : IngestOpts) (ft : String)
    (hfn : filename ≠ "")
    (hds : (st.Datasets.find? (fun d => d.ID == datasetID)).isSome)
    (hstrict : env.strictCheck = false)
    (hnod : opts.IsDuplicateFuncName = "")
    (hnof : opts.IsDuplicateFunc = none)
    (hft : env.getFiletype filename content = .ok ft)
    (hnoflow : ∀ fl ∈ opts.IngestionFlows, fl.SupportsFiletype ft = false)
    (hfillok : ∃ flow1, env.fillDefaults IngestionFlow.empty ft = .ok flow1)
    (hfill : ∀ flow1, env.fillDefaults IngestionFlow.empty ft = .ok flow1 →
      flow1.Load = none) :
    (Datastore.Ingest env s st datasetID filename content opts).ret =
      .error (.unsupportedFileType ft opts.FileMeta.AbsolutePath)
    ∧ clientIngestFile true (Datastore.Ingest env s st datasetID filename content opts).ret =
      .error (.unsupportedFileType ft opts.FileMeta.AbsolutePath)
    ∧ clientIngestFile false (Datastore.Ingest env s st datasetID filename content opts).ret =
      .ok none := by
  obtain ⟨ds, hds2⟩ := Option.isSome_iff_exists.mp hds
  obtain ⟨s1, hbind⟩ := bindEmbeddingConfig_not_strict_ok env s st.Datasets datasetID ds hstrict
  rcases hsplit : bindEmbeddingConfig env s st.Datasets datasetID ds with ⟨datasets1, ds1, r⟩
  rw [hsplit] at hbind
  simp only at hbind
  subst hbind
  have hres : resolveIsDuplicate env opts = .ok dedupeUpsert := by
    rw [resolveIsDuplicate]
    simp [hnod, hnof]
  have hfind : opts.IngestionFlows.find? (fun fl => fl.SupportsFiletype ft) = none :=
    List.find?_eq_none.mpr (fun fl hfl => by simp [hnoflow fl hfl])
  obtain ⟨flow1, hfill1⟩ := hfillok
  have hload := hfill flow1 hfill1
  have hmain : (Datastore.Ingest env s st datasetID filename content opts).ret =
      .error (.unsupportedFileType ft opts.FileMeta.AbsolutePath) := by
    simp only [Datastore.Ingest]
    rw [if_neg (by simpa using hfn)]
    simp only [hds2, hsplit, hres, hft, dedupeUpsert, ingestFlowPhase,
      hfind, Option.getD_none, hfill1, hload, Option.isNone_none, if_true]
  refine ⟨hmain, ?_, ?_⟩
  · rw [hmain]; rfl
  · rw [hmain]; rfl

/-- Witness for C4: the no-loader environment on the fixture state. -/
theorem ingest_unsupported_filetype_witness :
    (Datastore.Ingest envNoLoad storeA stA "d" "a.txt" "abc" optsPlain).ret =
      .error (.unsupportedFileType "text" optsPlain.FileMeta.AbsolutePath)
    ∧ clientIngestFile true (Datastore.Ingest envNoLoad storeA stA "d" "a.txt" "abc" optsPlain).ret =
      .error (.unsupportedFileType "text" optsPlain.FileMeta.AbsolutePath)
    ∧ clientIngestFile false (Datastore.Ingest envNoLoad storeA stA "d" "a.txt" "abc" optsPlain).ret =
      .ok none :=
  ingest_unsupported_filetype envNoLoad storeA stA "d" "a.txt" "abc" optsPlain "text"
    (by decide) (by decide) rfl rfl rfl rfl
    (fun fl hfl => by simp [optsPlain, optsDup] at hfl)
    ⟨IngestionFlow.empty, rfl⟩
    (fun flow1 h => by cases h; rfl)

/-- C9: a flow run producing zero chunks makes Ingest return no IDs and
no error, and the whole persisted state is exactly as before: nothing
was removed for the path and nothing was added to store or index. -/
theorem ingest_zero_chunks_noop (env : Env) (s : Datastore) (st : SysState)
    (datasetID filename content : String) (opts : IngestOpts)
    (ds : Dataset) (cfg : EmbeddingConfig) (ft : String) (flow1 : IngestionFlow)
    (hfn : filename ≠ "")
    (hds : st.Datasets.find? (fun d => d.ID == datasetID) = some ds)
    (hcfg : ds.EmbeddingsProviderConfig = some cfg)
    (hsame : cfg.Model = s.EmbeddingModelProvider.Model)
    (hstrict : env.strictCheck = false)
    (hnod : opts.IsDuplicateFuncName = "")
    (hnof : opts.IsDuplicateFunc = none)
    (hft : env.getFiletype filename content = .ok ft)
    (hfill : env.fillDefaults
      ((opts.IngestionFlows.find? (fun fl => fl.SupportsFiletype ft)).getD IngestionFlow.empty) ft
      = .ok flow1)
    (hload : flow1.Load.isNone = false)
    (hrun : runResolvedFlow flow1 filename opts.FileMeta s.EmbeddingModelProvider.Model
      opts.ExtraMetadata content = .ok []) :
    Datastore.Ingest env s st datasetID filename content opts = ⟨.ok none, s, st, []⟩ := by
  have hres : resolveIsDuplicate env opts = .ok dedupeUpsert := by
    rw [resolveIsDuplicate]
    simp [hnod, hnof]
  simp only [Datastore.Ingest]
  rw [if_neg (by simpa using hfn)]
  simp only [hds,
    bindEmbeddingConfig_same_model env s st.Datasets datasetID ds cfg hcfg hsame hstrict,
    hres, hft, dedupeUpsert, ingestFlowPhase, hfill, hload, hrun, Bool.false_eq_true,
    if_false, List.isEmpty_nil, if_true]

/-- Witness for C9: the empty-loader environment produces zero chunks on
the fixture state and the call is a successful no-op. -/
theorem ingest_zero_chunks_noop_witness :
    Datastore.Ingest envEmptyLoad storeA stA "d" "a.txt" "abc" optsPlain =
      ⟨.ok none, storeA, stA, []⟩ :=
  ingest_zero_chunks_noop envEmptyLoad storeA stA "d" "a.txt" "abc" optsPlain
    dsA cfgA "text" { IngestionFlow.empty with Load := some loaderEmpty }
    (by decide) rfl rfl rfl rfl rfl rfl rfl rfl rfl rfl

end Knowledge

namespace Knowledge

/-! ## Theorems: metadata bookkeeping of the ingest pipeline -/

theorem find?_map_metaSetFn (k : String) (v : MetaValue) :
    ∀ m : Metadata, m.any (fun kv => kv.1 == k) = true →
    (m.map (fun kv => if kv.1 == k then (k, v) else kv)).find? (fun kv => kv.1 == k)
      = some (k, v) := by
  intro m
  induction m with
  | nil => intro h; simp at h
  | cons kv rest ih =>
    intro h
    rw [List.map_cons]
    by_cases hk : (kv.1 == k) = true
    · rw [if_pos hk]
      rw [List.find?_cons_of_pos _ (by simp)]
    · rw [if_neg hk]
      have hkf : (kv.1 == k) = false := by simpa using hk
      rw [List.find?_cons, hkf]
      apply ih
      rcases List.any_eq_true.mp h with ⟨x, hx, hpx⟩
      rcases List.mem_cons.mp hx with h1 | h2
      · exact absurd (h1 ▸ hpx) hk
      · exact List.any_eq_true.mpr ⟨x, h2, hpx⟩

theorem find?_append_of_none {α : Type} (p : α → Bool) :
    ∀ (l1 l2 : List α), l1.find? p = none → (l1 ++ l2).find? p = l2.find? p := by
  intro l1
  induction l1 with
  | nil => intro l2 _; simp
  | cons x rest ih =>
    intro l2 h
    rw [List.find?_cons] at h
    rw [List.cons_append, List.find?_cons]
    cases hp : p x with
    | true => rw [hp] at h; simp at h
    | false => rw [hp] at h; rw [ih l2 h]

theorem metaLookup_metaSet_self (m : Metadata) (k : String) (v : MetaValue) :
    metaLookup (metaSet m k v) k = some v := by
  rw [metaSet]
  by_cases h : m.any (fun kv => kv.1 == k) = true
  · rw [if_pos h, metaLookup, find?_map_metaSetFn k v m h]
    rfl
  · rw [if_neg h, metaLookup]
    have hnone : m.find? (fun kv => kv.1 == k) = none := by
      cases hf : m.find? (fun kv => kv.1 == k) with
      | none => rfl
      | some kv =>
        exact absurd (List.any_eq_true.mpr
          ⟨kv, List.mem_of_find?_eq_some hf, List.find?_some hf⟩) h
    rw [find?_append_of_none _ m [(k, v)] hnone]
    rw [List.find?_cons_of_pos _ (by simp)]
    rfl

theorem metaLookup_metaSet_other (m : Metadata) (k : String) (v : MetaValue)
    (k2 : String) (hne : k2 ≠ k) :
    metaLookup (metaSet m k v) k2 = metaLookup m k2 := by
  rw [metaSet]
  by_cases h : m.any (fun kv => kv.1 == k) = true
  · rw [if_pos h]
    rw [metaLookup, metaLookup]
    clear h
    induction m with
    | nil => simp
    | cons kv rest ih =>
      rw [List.map_cons, List.find?_cons, List.find?_cons]
      by_cases hk : (kv.1 == k) = true
      · rw [if_pos hk]
        have h1 : ((k, v).1 == k2) = false := by
          simp only [beq_eq_false_iff_ne]
          exact fun hx => hne hx.symm
        have h2 : (kv.1 == k2) = false := by
          simp only [beq_eq_false_iff_ne]
          rw [beq_iff_eq] at hk
          rw [hk]
          exact fun hx => hne hx.symm
        rw [h1, h2]
        exact ih
      · rw [if_neg hk]
        cases hp : (kv.1 == k2) with
        | true => rfl
        | false => exact ih
  · rw [if_neg h, metaLookup, metaLookup]
    cases hf : m.find? (fun kv => kv.1 == k2) with
    | some x => rw [List.find?_append, hf]; rfl
    | none =>
      rw [find?_append_of_none _ m [(k, v)] hf]
      rw [List.find?_cons_of_neg _ (by simpa using fun hx => hne hx.symm)]
      simp

theorem metaLookup_foldl_metaSet_absent (k : String) :
    ∀ (l : Metadata) (m : Metadata), (∀ kv ∈ l, kv.1 ≠ k) →
    metaLookup (l.foldl (fun acc kv => metaSet acc kv.1 kv.2) m) k = metaLookup m k := by
  intro l
  induction l with
  | nil => intro m _; rfl
  | cons kv rest ih =>
    intro m h
    rw [List.foldl_cons]
    rw [ih (metaSet m kv.1 kv.2) (fun x hx => h x (List.mem_cons_of_mem _ hx))]
    exact metaLookup_metaSet_other m kv.1 kv.2 k
      (fun hx => h kv (List.mem_cons_self _ _) hx.symm)

theorem metaLookup_foldl_metaSet_unique (k : String) (v : MetaValue) :
    ∀ (l : Metadata) (m : Metadata), l.filter (fun kv => kv.1 == k) = [(k, v)] →
    metaLookup (l.foldl (fun acc kv => metaSet acc kv.1 kv.2) m) k = some v := by
  intro l
  induction l with
  | nil => intro m h; simp at h
  | cons kv rest ih =>
    intro m h
    rw [List.foldl_cons]
    by_cases hk : (kv.1 == k) = true
    · rw [List.filter_cons, hk, if_pos rfl] at h
      rw [List.cons_eq_cons] at h
      have hkv : kv = (k, v) := h.1
      have hrest : rest.filter (fun kv => kv.1 == k) = [] := h.2
      have habsent : ∀ x ∈ rest, x.1 ≠ k := by
        intro x hx
        have := List.filter_eq_nil_iff.mp hrest x hx
        simpa using this
      rw [metaLookup_foldl_metaSet_absent k rest (metaSet m kv.1 kv.2) habsent]
      rw [hkv]
      exact metaLookup_metaSet_self m k v
    · have hkf : (kv.1 == k) = false := by simpa using hk
      rw [List.filter_cons, hkf] at h
      simp only [Bool.false_eq_true, if_false] at h
      exact ih (metaSet m kv.1 kv.2) h

theorem metaLookup_append_of_isSome (m l2 : Metadata) (k : String)
    (h : (metaLookup m k).isSome) :
    metaLookup (m ++ l2) k = metaLookup m k := by
  rw [metaLookup] at h ⊢
  rw [metaLookup]
  cases hf : m.find? (fun kv => kv.1 == k) with
  | none => rw [hf] at h; simp at h
  | some x => rw [List.find?_append, hf]; rfl

theorem foldl_addIfAbsent_filter (k0 : String) :
    ∀ (extra : Metadata) (m : Metadata), (metaLookup m k0).isSome →
    ((extra.foldl (fun m kv => if (metaLookup m kv.1).isSome then m else m ++ [kv]) m).filter
        (fun kv => kv.1 == k0)) = m.filter (fun kv => kv.1 == k0)
    ∧ (metaLookup (extra.foldl (fun m kv => if (metaLookup m kv.1).isSome then m else m ++ [kv]) m) k0).isSome := by
  intro extra
  induction extra with
  | nil => intro m h; exact ⟨rfl, h⟩
  | cons kv rest ih =>
    intro m h
    rw [List.foldl_cons]
    by_cases hc : (metaLookup m kv.1).isSome
    · rw [if_pos hc]
      exact ih m h
    · rw [if_neg hc]
      have hne : kv.1 ≠ k0 := by
        intro hx
        rw [hx] at hc
        exact hc h
      have h2 : (metaLookup (m ++ [kv]) k0).isSome := by
        rw [metaLookup_append_of_isSome m [kv] k0 h]
        exact h
      have h3 := ih (m ++ [kv]) h2
      refine ⟨?_, h3.2⟩
      rw [h3.1, List.filter_append]
      rw [List.filter_cons_of_neg (by simpa using hne), List.filter_nil, List.append_nil]

/-- The base metadata list of buildMetadata. -/
def baseMetadata (filename : String) (fm : FileMetadata) (model : String) : Metadata :=
  [("filename", .str filename), ("absPath", .str fm.AbsolutePath),
   ("fileSize", .int fm.Size), ("embeddingModel", .str model)]

theorem buildMetadata_eq_foldl (filename : String) (fm : FileMetadata) (model : String)
    (extra : Metadata) :
    buildMetadata filename fm model extra =
      extra.foldl (fun m kv => if (metaLookup m kv.1).isSome then m else m ++ [kv])
        (baseMetadata filename fm model) := by
  rw [buildMetadata, baseMetadata]

theorem buildMetadata_filter (filename : String) (fm : FileMetadata) (model : String)
    (extra : Metadata) (k0 : String) (v0 : MetaValue)
    (hbase : (baseMetadata filename fm model).filter (fun kv => kv.1 == k0) = [(k0, v0)])
    (hlook : (metaLookup (baseMetadata filename fm model) k0).isSome) :
    (buildMetadata filename fm model extra).filter (fun kv => kv.1 == k0) = [(k0, v0)] := by
  rw [buildMetadata_eq_foldl]
  rw [(foldl_addIfAbsent_filter k0 extra (baseMetadata filename fm model) hlook).1]
  exact hbase

theorem applyTransformations_append_single
    (t : List Document → Except GoErr (List Document)) :
    ∀ (ts : List (List Document → Except GoErr (List Document)))
      (docs out : List Document),
    applyTransformations (ts ++ [t]) docs = .ok out →
    ∃ mid, applyTransformations ts docs = .ok mid ∧ t mid = .ok out := by
  intro ts
  induction ts with
  | nil =>
    intro docs out h
    rw [List.nil_append] at h
    simp only [applyTransformations] at h
    cases ht : t docs with
    | error e => rw [ht] at h; exact absurd h (by simp)
    | ok docs2 =>
      rw [ht] at h
      simp only [applyTransformations] at h
      exact ⟨docs, rfl, by rw [ht, h]⟩
  | cons t0 rest ih =>
    intro docs out h
    rw [List.cons_append] at h
    simp only [applyTransformations] at h
    cases ht0 : t0 docs with
    | error e => rw [ht0] at h; exact absurd h (by simp)
    | ok mid0 =>
      rw [ht0] at h
      obtain ⟨mid, h1, h2⟩ := ih mid0 out h
      refine ⟨mid, ?_, h2⟩
      simp only [applyTransformations, ht0]
      exact h1

theorem runResolvedFlow_inv (flow1 : IngestionFlow) (filename : String)
    (fm : FileMetadata) (model : String) (extra : Metadata) (content : String)
    (docs : List Document)
    (hrun : runResolvedFlow flow1 filename fm model extra content = .ok docs) :
    ∃ mid, extraMetadataTransform (buildMetadata filename fm model extra) mid = .ok docs := by
  rw [runResolvedFlow] at hrun
  set flow2 : IngestionFlow := { flow1 with Transformations :=
    flow1.Transformations ++ [extraMetadataTransform (buildMetadata filename fm model extra)] } with hflow2
  rw [IngestionFlow.Run] at hrun
  cases hconv : runConverter flow2 content with
  | error e => rw [hconv] at hrun; exact absurd hrun (by simp)
  | ok c2 =>
    rw [hconv] at hrun
    simp only at hrun
    cases hload : flow2.Load with
    | none => rw [hload] at hrun; exact absurd hrun (by simp)
    | some ld =>
      rw [hload] at hrun
      simp only at hrun
      cases hld : ld c2 with
      | error e => rw [hld] at hrun; exact absurd hrun (by simp)
      | ok rawDocs =>
        rw [hld] at hrun
        simp only at hrun
        cases hsp : runSplitter flow2 rawDocs with
        | error e => rw [hsp] at hrun; exact absurd hrun (by simp)
        | ok chunks =>
          rw [hsp] at hrun
          simp only at hrun
          obtain ⟨mid, _, h2⟩ :=
            applyTransformations_append_single _ flow1.Transformations chunks docs hrun
          exact ⟨mid, h2⟩

theorem extraMetadataTransform_lookup (meta : Metadata) (mid docs : List Document)
    (h : extraMetadataTransform meta mid = .ok docs)
    (k0 : String) (v0 : MetaValue)
    (hfilter : meta.filter (fun kv => kv.1 == k0) = [(k0, v0)]) :
    ∀ d ∈ docs, metaLookup d.Metadata k0 = some v0 := by
  intro d hd
  rw [extraMetadataTransform] at h
  have hdocs : docs = mid.map (fun d =>
      { d with Metadata := meta.foldl (fun m kv => metaSet m kv.1 kv.2) d.Metadata }) := by
    cases h
    rfl
  rw [hdocs] at hd
  obtain ⟨d0, _, hd0⟩ := List.mem_map.mp hd
  rw [← hd0]
  exact metaLookup_foldl_metaSet_unique k0 v0 meta d0.Metadata hfilter

end Knowledge

namespace Knowledge

theorem runResolvedFlow_metadata_keys (flow1 : IngestionFlow) (filename : String)
    (fm : FileMetadata) (model : String) (extra : Metadata) (content : String)
    (docs : List Document)
    (hrun : runResolvedFlow flow1 filename fm model extra content = .ok docs) :
    ∀ d ∈ docs,
      metaLookup d.Metadata "filename" = some (.str filename)
      ∧ metaLookup d.Metadata "absPath" = some (.str fm.AbsolutePath)
      ∧ metaLookup d.Metadata "fileSize" = some (.int fm.Size)
      ∧ metaLookup d.Metadata "embeddingModel" = some (.str model) := by
  obtain ⟨mid, hmid⟩ := runResolvedFlow_inv flow1 filename fm model extra content docs hrun
  intro d hd
  refine ⟨?_, ?_, ?_, ?_⟩
  · exact extraMetadataTransform_lookup _ mid docs hmid "filename" (.str filename)
      (buildMetadata_filter filename fm model extra _ _
        (by simp [baseMetadata]) (by simp [metaLookup, baseMetadata])) d hd
  · exact extraMetadataTransform_lookup _ mid docs hmid "absPath" (.str fm.AbsolutePath)
      (buildMetadata_filter filename fm model extra _ _
        (by simp [baseMetadata]) (by simp [metaLookup, baseMetadata])) d hd
  · exact extraMetadataTransform_lookup _ mid docs hmid "fileSize" (.int fm.Size)
      (buildMetadata_filter filename fm model extra _ _
        (by simp [baseMetadata]) (by simp [metaLookup, baseMetadata])) d hd
  · exact extraMetadataTransform_lookup _ mid docs hmid "embeddingModel" (.str model)
      (buildMetadata_filter filename fm model extra _ _
        (by simp [baseMetadata]) (by simp [metaLookup, baseMetadata])) d hd

/-! ## Theorems: vector store operations -/

theorem whereMatch_singleton (k val : String) (d : Document) :
    whereMatch [(k, val)] d = (metaText d.Metadata k == some val) := by
  simp [whereMatch]

theorem removeDocument_ok_where (v : VectorStore) (collection path : String)
    (vs2 : VectorStore)
    (hrem : v.RemoveDocument "" collection [("absPath", path)] = .ok vs2) :
    vs2.Collections = v.Collections
    ∧ vs2.Rows = v.Rows.filter (fun r =>
        !(r.Collection == collection && whereMatch [("absPath", path)] r.Doc)) := by
  rw [VectorStore.RemoveDocument] at hrem
  by_cases hcol : v.Collections.contains collection = true
  · rw [if_pos hcol] at hrem
    by_cases hcount : ((v.Rows.filter (fun r => r.Collection == collection)).length == 0) = true
    · rw [if_pos hcount] at hrem
      cases hrem
      have hempty : ∀ r ∈ v.Rows, (r.Collection == collection) = false := by
        intro r hr
        have h0 : v.Rows.filter (fun r => r.Collection == collection) = [] :=
          List.length_eq_zero.mp (by simpa using hcount)
        have := List.filter_eq_nil_iff.mp h0 r hr
        simpa using this
      refine ⟨rfl, ?_⟩
      symm
      apply List.filter_eq_self.mpr
      intro r hr
      rw [hempty r hr]
      rfl
    · rw [if_neg hcount] at hrem
      rw [if_pos (by simp)] at hrem
      cases hrem
      exact ⟨rfl, rfl⟩
  · rw [if_neg hcol] at hrem
    exact absurd hrem (by simp)

theorem removeDocument_ret_ok_inv (v : VectorStore) (collection path : String)
    (x : VectorStore)
    (h : v.RemoveDocument "" collection [("absPath", path)] = .ok x) :
    v.Collections.contains collection = true := by
  rw [VectorStore.RemoveDocument] at h
  by_cases hcol : v.Collections.contains collection = true
  · exact hcol
  · rw [if_neg hcol] at h
    exact absurd h (by simp)

theorem addDocuments_ok (v : VectorStore) (embed : String → List Int)
    (docs : List Document) (collection : String)
    (hcol : v.Collections.contains collection = true) :
    v.AddDocuments embed docs collection = .ok (docs.map (fun d => d.ID),
      { v with Rows := v.Rows ++ docs.map (fun d =>
          (⟨collection, { d with Embedding :=
            if d.Embedding.isEmpty then embed d.Content else d.Embedding }⟩ : VSRow)) },
      (docs.filter (fun d => d.Embedding.isEmpty)).map (fun d => d.Content)) := by
  rw [VectorStore.AddDocuments, if_pos hcol]

theorem addDocuments_ok_inv (v : VectorStore) (embed : String → List Int)
    (docs : List Document) (collection : String) (x : List String × VectorStore × List String)
    (h : v.AddDocuments embed docs collection = .ok x) :
    v.Collections.contains collection = true := by
  rw [VectorStore.AddDocuments] at h
  by_cases hcol : v.Collections.contains collection = true
  · exact hcol
  · rw [if_neg hcol] at h
    exact absurd h (by simp)

end Knowledge

namespace Knowledge

/-! ## Theorems: commit phase characterization -/

theorem ingestCommitPhase_ok (env : Env) (s1 : Datastore) (st1 : SysState)
    (datasetID filename : String) (opts : IngestOpts) (docs1 : List Document)
    (vs2 : VectorStore)
    (hrem : st1.VS.RemoveDocument "" datasetID [("absPath", opts.FileMeta.AbsolutePath)] = .ok vs2)
    (hcol : vs2.Collections.contains datasetID = true) :
    ingestCommitPhase env s1 st1 datasetID filename opts docs1 =
      (let docs2 := if opts.ReuseEmbeddings then
          reuseEmbeddings s1.EmbeddingModelProvider.Model { st1 with VS := vs2 } docs1
        else docs1
       ⟨.ok (some (docs2.map (fun d => d.ID))), s1,
        ⟨st1.Datasets,
         st1.Files ++ [⟨env.newFileID, datasetID,
           (docs2.map (fun d => d.ID)).enum.map (fun p => DBDocument.mk p.2 env.newFileID datasetID p.1),
           ⟨filename, opts.FileMeta.AbsolutePath, opts.FileMeta.Size, opts.FileMeta.ModifiedAt⟩⟩],
         ⟨vs2.Collections, vs2.Rows ++ docs2.map (fun d =>
           (⟨datasetID, { d with Embedding :=
             if d.Embedding.isEmpty then env.embed s1.EmbeddingModelProvider.Model d.Content
             else d.Embedding }⟩ : VSRow))⟩⟩,
        (docs2.filter (fun d => d.Embedding.isEmpty)).map (fun d => d.Content)⟩) := by
  rw [ingestCommitPhase, hrem]
  simp only [addDocuments_ok vs2 (env.embed s1.EmbeddingModelProvider.Model) _ datasetID hcol]

theorem ingestCommitPhase_ret_ok_inv (env : Env) (s1 : Datastore) (st1 : SysState)
    (datasetID filename : String) (opts : IngestOpts) (docs1 : List Document)
    (r : Option (List String))
    (h : (ingestCommitPhase env s1 st1 datasetID filename opts docs1).ret = .ok r) :
    ∃ vs2, st1.VS.RemoveDocument "" datasetID [("absPath", opts.FileMeta.AbsolutePath)] = .ok vs2
      ∧ vs2.Collections.contains datasetID = true := by
  rw [ingestCommitPhase] at h
  cases hrem : st1.VS.RemoveDocument "" datasetID [("absPath", opts.FileMeta.AbsolutePath)] with
  | error e =>
    rw [hrem] at h
    simp only at h
    exact absurd h (by simp)
  | ok vs2 =>
    rw [hrem] at h
    simp only at h
    refine ⟨vs2, rfl, ?_⟩
    cases hadd : vs2.AddDocuments (env.embed s1.EmbeddingModelProvider.Model)
        (if opts.ReuseEmbeddings then
          reuseEmbeddings s1.EmbeddingModelProvider.Model { st1 with VS := vs2 } docs1
        else docs1) datasetID with
    | error e =>
      rw [hadd] at h
      simp only at h
      exact absurd h (by simp)
    | ok x =>
      exact addDocuments_ok_inv vs2 _ _ datasetID x hadd

/-! ## Theorems: success-path inversion of Ingest -/

theorem ingestFlowPhase_ret_ok_inv (env : Env) (s1 : Datastore) (st1 : SysState)
    (datasetID filename content : String) (opts : IngestOpts) (ft : String)
    (r : Option (List String))
    (h : (ingestFlowPhase env s1 st1 datasetID filename content opts ft).ret = .ok r) :
    ∃ flow1,
      env.fillDefaults ((opts.IngestionFlows.find? (fun fl => fl.SupportsFiletype ft)).getD IngestionFlow.empty) ft = .ok flow1
      ∧ flow1.Load.isNone = false
      ∧ ∃ docs0,
          runResolvedFlow flow1 filename opts.FileMeta s1.EmbeddingModelProvider.Model opts.ExtraMetadata content = .ok docs0
          ∧ ((docs0.isEmpty = true ∧ r = none
              ∧ ingestFlowPhase env s1 st1 datasetID filename content opts ft = ⟨.ok none, s1, st1, []⟩)
            ∨ (docs0.isEmpty = false
              ∧ ingestFlowPhase env s1 st1 datasetID filename content opts ft =
                  ingestCommitPhase env s1 st1 datasetID filename opts docs0)) := by
  rw [ingestFlowPhase] at h
  cases hfill : env.fillDefaults ((opts.IngestionFlows.find? (fun fl => fl.SupportsFiletype ft)).getD IngestionFlow.empty) ft with
  | error e =>
    rw [hfill] at h
    simp only at h
    exact absurd h (by simp)
  | ok flow1 =>
    rw [hfill] at h
    simp only at h
    refine ⟨flow1, rfl, ?_⟩
    by_cases hload : flow1.Load.isNone = true
    · rw [if_pos hload] at h
      exact absurd h (by simp)
    · rw [if_neg hload] at h
      rw [Bool.not_eq_true] at hload
      refine ⟨hload, ?_⟩
      cases hrun : runResolvedFlow flow1 filename opts.FileMeta s1.EmbeddingModelProvider.Model opts.ExtraMetadata content with
      | error e =>
        rw [hrun] at h
        simp only at h
        exact absurd h (by simp)
      | ok docs0 =>
        rw [hrun] at h
        simp only at h
        refine ⟨docs0, rfl, ?_⟩
        by_cases hempty : docs0.isEmpty = true
        · left
          rw [if_pos hempty] at h
          simp only at h
          refine ⟨hempty, by simpa using h.symm, ?_⟩
          simp only [ingestFlowPhase, hfill]
          rw [if_neg (by simp [hload]), hrun]
          simp only
          rw [if_pos hempty]
        · right
          rw [Bool.not_eq_true] at hempty
          refine ⟨hempty, ?_⟩
          simp only [ingestFlowPhase, hfill]
          rw [if_neg (by simp [hload]), hrun]
          simp only
          rw [if_neg (by simp [hempty])]
          rfl

end Knowledge

namespace Knowledge

theorem ingest_ret_ok_inv (env : Env) (s : Datastore) (st : SysState)
    (datasetID filename content : String) (opts : IngestOpts)
    (r : Option (List String))
    (h : (Datastore.Ingest env s st datasetID filename content opts).ret = .ok r) :
    ∃ ds datasets1 ds1 s1 df ft,
      (filename == "") = false
      ∧ st.Datasets.find? (fun d => d.ID == datasetID) = some ds
      ∧ bindEmbeddingConfig env s st.Datasets datasetID ds = (datasets1, ds1, .ok s1)
      ∧ resolveIsDuplicate env opts = .ok df
      ∧ env.getFiletype filename content = .ok ft
      ∧ ((df { st with Datasets := datasets1 } datasetID opts.FileMeta = .ok true
            ∧ r = none
            ∧ Datastore.Ingest env s st datasetID filename content opts =
                ⟨.ok none, s1, { st with Datasets := datasets1 }, []⟩)
        ∨ (df { st with Datasets := datasets1 } datasetID opts.FileMeta = .ok false
            ∧ Datastore.Ingest env s st datasetID filename content opts =
                ingestFlowPhase env s1 { st with Datasets := datasets1 } datasetID filename content opts ft)) := by
  rw [Datastore.Ingest] at h
  by_cases hfn : (filename == "") = true
  · rw [if_pos hfn] at h
    exact absurd h (by simp)
  · rw [if_neg hfn] at h
    rw [Bool.not_eq_true] at hfn
    cases hds : st.Datasets.find? (fun d => d.ID == datasetID) with
    | none =>
      rw [hds] at h
      simp only at h
      exact absurd h (by simp)
    | some ds =>
      rw [hds] at h
      simp only at h
      rcases hbind : bindEmbeddingConfig env s st.Datasets datasetID ds with ⟨datasets1, ds1, rb⟩
      rw [hbind] at h
      simp only at h
      cases rb with
      | error e => exact absurd h (by simp)
      | ok s1 =>
        cases hres : resolveIsDuplicate env opts with
        | error e =>
          rw [hres] at h
          simp only at h
          exact absurd h (by simp)
        | ok df =>
          rw [hres] at h
          simp only at h
          cases hft : env.getFiletype filename content with
          | error e =>
            rw [hft] at h
            simp only at h
            exact absurd h (by simp)
          | ok ft =>
            rw [hft] at h
            simp only at h
            refine ⟨ds, datasets1, ds1, s1, df, ft, hfn, rfl, hbind, rfl, rfl, ?_⟩
            have hunfold : Datastore.Ingest env s st datasetID filename content opts =
                (match df { st with Datasets := datasets1 } datasetID opts.FileMeta with
                  | .error _ => ⟨.error .dedupCheckFailed, s1, { st with Datasets := datasets1 }, []⟩
                  | .ok true => ⟨.ok none, s1, { st with Datasets := datasets1 }, []⟩
                  | .ok false => ingestFlowPhase env s1 { st with Datasets := datasets1 } datasetID filename content opts ft) := by
              simp only [Datastore.Ingest]
              rw [if_neg (by simp [hfn])]
              simp only [hds, hbind, hres, hft]
            cases hdup : df { st with Datasets := datasets1 } datasetID opts.FileMeta with
            | error e =>
              rw [hdup] at h
              simp only at h
              exact absurd h (by simp)
            | ok b =>
              cases b with
              | true =>
                left
                rw [hdup] at h
                simp only at h
                refine ⟨rfl, by simpa using h.symm, ?_⟩
                rw [hunfold, hdup]
              | false =>
                right
                refine ⟨rfl, ?_⟩
                rw [hunfold, hdup]

end Knowledge

namespace Knowledge

theorem reuseOne_proj (model : String) (st : SysState) (d : Document) :
    (reuseOne model st d).ID = d.ID
    ∧ (reuseOne model st d).Content = d.Content
    ∧ (reuseOne model st d).Metadata = d.Metadata
    ∧ (reuseOne model st d).SimilarityScore = d.SimilarityScore := by
  rw [reuseOne]
  cases hres : reuseScanResult model st d with
  | none => exact ⟨rfl, rfl, rfl, rfl⟩
  | some vec => exact ⟨rfl, rfl, rfl, rfl⟩

theorem reuseEmbeddings_map_proj (model : String) (st : SysState) (docs : List Document) :
    (reuseEmbeddings model st docs).map (fun d => (d.ID, d.Content, d.Metadata, d.SimilarityScore))
      = docs.map (fun d => (d.ID, d.Content, d.Metadata, d.SimilarityScore)) := by
  rw [reuseEmbeddings, List.map_map]
  apply List.map_congr_left
  intro d _
  simp only [Function.comp]
  obtain ⟨h1, h2, h3, h4⟩ := reuseOne_proj model st d
  rw [h1, h2, h3, h4]

theorem reuseEmbeddings_mem_proj (model : String) (st : SysState) (docs : List Document) :
    ∀ d2 ∈ reuseEmbeddings model st docs, ∃ d ∈ docs,
      d2.ID = d.ID ∧ d2.Content = d.Content ∧ d2.Metadata = d.Metadata := by
  intro d2 hd2
  rw [reuseEmbeddings] at hd2
  obtain ⟨d, hd, hmap⟩ := List.mem_map.mp hd2
  obtain ⟨h1, h2, h3, _⟩ := reuseOne_proj model st d
  exact ⟨d, hd, by rw [← hmap]; exact h1, by rw [← hmap]; exact h2, by rw [← hmap]; exact h3⟩

/-- C6: every document committed by a successful Ingest carries the
filename, absPath, fileSize and embeddingModel metadata keys with the
values Ingest computed (so caller extra metadata cannot override them),
and the index records for the new file carry Document.Index values
exactly 0..n-1 in commit order. -/
theorem ingest_metadata_and_index_invariant (env : Env) (s : Datastore) (st : SysState)
    (datasetID filename content : String) (opts : IngestOpts) (ids : List String)
    (hok : (Datastore.Ingest env s st datasetID filename content opts).ret = .ok (some ids)) :
    (∃ newFile : DBFile,
      (Datastore.Ingest env s st datasetID filename content opts).state.Files = st.Files ++ [newFile]
      ∧ newFile.Documents.map (fun d => d.Index) = List.range ids.length
      ∧ newFile.Documents.map (fun d => d.ID) = ids)
    ∧ (∃ newRows : List VSRow,
      (Datastore.Ingest env s st datasetID filename content opts).state.VS.Rows =
        st.VS.Rows.filter (fun r =>
          !(r.Collection == datasetID && whereMatch [("absPath", opts.FileMeta.AbsolutePath)] r.Doc))
        ++ newRows
      ∧ newRows.length = ids.length
      ∧ ∀ row ∈ newRows,
          row.Collection = datasetID
          ∧ metaLookup row.Doc.Metadata "filename" = some (.str filename)
          ∧ metaLookup row.Doc.Metadata "absPath" = some (.str opts.FileMeta.AbsolutePath)
          ∧ metaLookup row.Doc.Metadata "fileSize" = some (.int opts.FileMeta.Size)
          ∧ metaLookup row.Doc.Metadata "embeddingModel" =
              some (.str (Datastore.Ingest env s st datasetID filename content opts).store.EmbeddingModelProvider.Model)) := by
  obtain ⟨ds, datasets1, ds1, s1, df, ft, hfn, hds, hbind, hres, hft, hbranch⟩ :=
    ingest_ret_ok_inv env s st datasetID filename content opts (some ids) hok
  rcases hbranch with ⟨-, habs, -⟩ | ⟨hdup, heq⟩
  · exact absurd habs (by simp)
  obtain ⟨flow1, hfill, hload, docs0, hrun, hbr2⟩ :=
    ingestFlowPhase_ret_ok_inv env s1 { st with Datasets := datasets1 } datasetID filename content opts ft (some ids)
      (by rw [← heq]; exact hok)
  rcases hbr2 with ⟨-, habs, -⟩ | ⟨hne, heq2⟩
  · exact absurd habs (by simp)
  obtain ⟨vs2, hrem, hcol⟩ :=
    ingestCommitPhase_ret_ok_inv env s1 { st with Datasets := datasets1 } datasetID filename opts docs0 (some ids)
      (by rw [← heq2, ← heq]; exact hok)
  have hcommit := ingestCommitPhase_ok env s1 { st with Datasets := datasets1 } datasetID filename opts docs0 vs2 hrem hcol
  have houtcome : Datastore.Ingest env s st datasetID filename content opts =
      ingestCommitPhase env s1 { st with Datasets := datasets1 } datasetID filename opts docs0 := by
    rw [heq, heq2]
  set docs2 := (if opts.ReuseEmbeddings then
      reuseEmbeddings s1.EmbeddingModelProvider.Model { st with Datasets := datasets1, VS := vs2 } docs0
    else docs0) with hdocs2
  have hcommit2 : ingestCommitPhase env s1 { st with Datasets := datasets1 } datasetID filename opts docs0 =
      ⟨.ok (some (docs2.map (fun d => d.ID))), s1,
        ⟨datasets1,
         st.Files ++ [⟨env.newFileID, datasetID,
           (docs2.map (fun d => d.ID)).enum.map (fun p => DBDocument.mk p.2 env.newFileID datasetID p.1),
           ⟨filename, opts.FileMeta.AbsolutePath, opts.FileMeta.Size, opts.FileMeta.ModifiedAt⟩⟩],
         ⟨vs2.Collections, vs2.Rows ++ docs2.map (fun d =>
           (⟨datasetID, { d with Embedding :=
             if d.Embedding.isEmpty then env.embed s1.EmbeddingModelProvider.Model d.Content
             else d.Embedding }⟩ : VSRow))⟩⟩,
        (docs2.filter (fun d => d.Embedding.isEmpty)).map (fun d => d.Content)⟩ := by
    rw [hcommit]
  have hids : docs2.map (fun d => d.ID) = ids := by
    have := hok
    rw [houtcome, hcommit2] at this
    simpa using this
  have hmeta0 := runResolvedFlow_metadata_keys flow1 filename opts.FileMeta
    s1.EmbeddingModelProvider.Model opts.ExtraMetadata content docs0 hrun
  have hmeta2 : ∀ d ∈ docs2,
      metaLookup d.Metadata "filename" = some (.str filename)
      ∧ metaLookup d.Metadata "absPath" = some (.str opts.FileMeta.AbsolutePath)
      ∧ metaLookup d.Metadata "fileSize" = some (.int opts.FileMeta.Size)
      ∧ metaLookup d.Metadata "embeddingModel" = some (.str s1.EmbeddingModelProvider.Model) := by
    intro d hd
    rw [hdocs2] at hd
    by_cases hr : opts.ReuseEmbeddings
    · rw [if_pos hr] at hd
      obtain ⟨d0, hd0, _, _, hm⟩ := reuseEmbeddings_mem_proj _ _ docs0 d hd
      rw [hm]
      exact hmeta0 d0 hd0
    · rw [if_neg hr] at hd
      exact hmeta0 d hd
  constructor
  · refine ⟨⟨env.newFileID, datasetID,
      (docs2.map (fun d => d.ID)).enum.map (fun p => DBDocument.mk p.2 env.newFileID datasetID p.1),
      ⟨filename, opts.FileMeta.AbsolutePath, opts.FileMeta.Size, opts.FileMeta.ModifiedAt⟩⟩, ?_, ?_, ?_⟩
    · rw [houtcome, hcommit2]
    · show ((docs2.map (fun d => d.ID)).enum.map (fun p => DBDocument.mk p.2 env.newFileID datasetID p.1)).map (fun d => d.Index) = List.range ids.length
      rw [List.map_map]
      have : ((fun d => d.Index) ∘ (fun p : Nat × String => DBDocument.mk p.2 env.newFileID datasetID p.1)) = Prod.fst := by
        funext p
        rfl
      rw [this, List.enum_map_fst, hids]
    · show ((docs2.map (fun d => d.ID)).enum.map (fun p => DBDocument.mk p.2 env.newFileID datasetID p.1)).map (fun d => d.ID) = ids
      rw [List.map_map]
      have : ((fun d => d.ID) ∘ (fun p : Nat × String => DBDocument.mk p.2 env.newFileID datasetID p.1)) = Prod.snd := by
        funext p
        rfl
      rw [this, List.enum_map_snd, hids]
  · refine ⟨docs2.map (fun d =>
      (⟨datasetID, { d with Embedding :=
        if d.Embedding.isEmpty then env.embed s1.EmbeddingModelProvider.Model d.Content
        else d.Embedding }⟩ : VSRow)), ?_, ?_, ?_⟩
    · rw [houtcome, hcommit2]
      simp only
      rw [(removeDocument_ok_where { st with Datasets := datasets1 }.VS datasetID opts.FileMeta.AbsolutePath vs2 hrem).2]
    · rw [List.length_map, ← hids, List.length_map]
    · intro row hrow
      obtain ⟨d, hd, hrd⟩ := List.mem_map.mp hrow
      rw [← hrd]
      have hm := hmeta2 d hd
      rw [houtcome, hcommit2]
      exact ⟨rfl, hm.1, hm.2.1, hm.2.2.1, hm.2.2.2⟩

end Knowledge

namespace Knowledge

theorem reuseEmbeddings_map_content (model : String) (st : SysState) (docs : List Document) :
    (reuseEmbeddings model st docs).map (fun d => d.Content) = docs.map (fun d => d.Content) := by
  rw [reuseEmbeddings, List.map_map]
  apply List.map_congr_left
  intro d _
  simp only [Function.comp]
  exact (reuseOne_proj model st d).2.1

theorem reuseEmbeddings_map_id (model : String) (st : SysState) (docs : List Document) :
    (reuseEmbeddings model st docs).map (fun d => d.ID) = docs.map (fun d => d.ID) := by
  rw [reuseEmbeddings, List.map_map]
  apply List.map_congr_left
  intro d _
  simp only [Function.comp]
  exact (reuseOne_proj model st d).1

theorem rowsForPath_eq_newRows (v : VectorStore) (base newRows : List VSRow)
    (collection path : String)
    (hrows : v.Rows = base.filter (fun r =>
        !(r.Collection == collection && whereMatch [("absPath", path)] r.Doc)) ++ newRows)
    (hnew : ∀ r ∈ newRows, (r.Collection == collection) = true
        ∧ metaText r.Doc.Metadata "absPath" = some path) :
    rowsForPath v collection path = newRows := by
  rw [rowsForPath, hrows, List.filter_append]
  have h1 : (base.filter (fun r =>
      !(r.Collection == collection && whereMatch [("absPath", path)] r.Doc))).filter
        (fun r => r.Collection == collection && metaText r.Doc.Metadata "absPath" == some path) = [] := by
    apply List.filter_eq_nil_iff.mpr
    intro r hr
    have hx := (List.mem_filter.mp hr).2
    rw [whereMatch_singleton] at hx
    rw [Bool.not_eq_true'] at hx
    rw [hx]
    simp
  have h2 : newRows.filter
      (fun r => r.Collection == collection && metaText r.Doc.Metadata "absPath" == some path) = newRows := by
    apply List.filter_eq_self.mpr
    intro r hr
    rw [(hnew r hr).1, (hnew r hr).2]
    simp
  rw [h1, h2, List.nil_append]

theorem ingest_ok_shape (env : Env) (s : Datastore) (st : SysState)
    (datasetID filename content : String) (opts : IngestOpts) (r : Option (List String))
    (h : (Datastore.Ingest env s st datasetID filename content opts).ret = .ok r) :
    (r = none
      ∧ (Datastore.Ingest env s st datasetID filename content opts).state.VS = st.VS
      ∧ (Datastore.Ingest env s st datasetID filename content opts).state.Files = st.Files)
    ∨ (∃ ds datasets1 ds1 s1 ft flow1 docs0 vs2,
        st.Datasets.find? (fun x => x.ID == datasetID) = some ds
        ∧ bindEmbeddingConfig env s st.Datasets datasetID ds = (datasets1, ds1, .ok s1)
        ∧ env.getFiletype filename content = .ok ft
        ∧ env.fillDefaults ((opts.IngestionFlows.find? (fun fl => fl.SupportsFiletype ft)).getD IngestionFlow.empty) ft = .ok flow1
        ∧ runResolvedFlow flow1 filename opts.FileMeta s1.EmbeddingModelProvider.Model opts.ExtraMetadata content = .ok docs0
        ∧ docs0.isEmpty = false
        ∧ st.VS.RemoveDocument "" datasetID [("absPath", opts.FileMeta.AbsolutePath)] = .ok vs2
        ∧ vs2.Collections.contains datasetID = true
        ∧ (Datastore.Ingest env s st datasetID filename content opts).store = s1
        ∧ (Datastore.Ingest env s st datasetID filename content opts).state.Datasets = datasets1
        ∧ (Datastore.Ingest env s st datasetID filename content opts).state.VS.Collections = st.VS.Collections
        ∧ r = some (docs0.map (fun x => x.ID))
        ∧ (Datastore.Ingest env s st datasetID filename content opts).state.Files =
            st.Files ++ [⟨env.newFileID, datasetID,
              (docs0.map (fun x => x.ID)).enum.map (fun p => DBDocument.mk p.2 env.newFileID datasetID p.1),
              ⟨filename, opts.FileMeta.AbsolutePath, opts.FileMeta.Size, opts.FileMeta.ModifiedAt⟩⟩]
        ∧ (Datastore.Ingest env s st datasetID filename content opts).state.VS.Rows =
            st.VS.Rows.filter (fun row =>
              !(row.Collection == datasetID && whereMatch [("absPath", opts.FileMeta.AbsolutePath)] row.Doc))
            ++ (if opts.ReuseEmbeddings then
                  reuseEmbeddings s1.EmbeddingModelProvider.Model ⟨datasets1, st.Files, vs2⟩ docs0
                else docs0).map (fun x =>
              (⟨datasetID, { x with Embedding :=
                if x.Embedding.isEmpty then env.embed s1.EmbeddingModelProvider.Model x.Content
                else x.Embedding }⟩ : VSRow))
        ∧ (Datastore.Ingest env s st datasetID filename content opts).embedded =
            ((if opts.ReuseEmbeddings then
                reuseEmbeddings s1.EmbeddingModelProvider.Model ⟨datasets1, st.Files, vs2⟩ docs0
              else docs0).filter (fun x => x.Embedding.isEmpty)).map (fun x => x.Content)
        ∧ (∀ row ∈ (if opts.ReuseEmbeddings then
                reuseEmbeddings s1.EmbeddingModelProvider.Model ⟨datasets1, st.Files, vs2⟩ docs0
              else docs0).map (fun x =>
              (⟨datasetID, { x with Embedding :=
                if x.Embedding.isEmpty then env.embed s1.EmbeddingModelProvider.Model x.Content
                else x.Embedding }⟩ : VSRow)),
            (row.Collection == datasetID) = true
            ∧ metaText row.Doc.Metadata "absPath" = some opts.FileMeta.AbsolutePath)
        ∧ (rowsForPath (Datastore.Ingest env s st datasetID filename content opts).state.VS
              datasetID opts.FileMeta.AbsolutePath).map (fun row => row.Doc.Content)
            = docs0.map (fun x => x.Content)) := by
  obtain ⟨ds, datasets1, ds1, s1, df, ft, hfn, hds, hbind, hres, hft, hbranch⟩ :=
    ingest_ret_ok_inv env s st datasetID filename content opts r h
  rcases hbranch with ⟨hdup, hrnone, heq⟩ | ⟨hdup, heq⟩
  · left
    refine ⟨hrnone, ?_, ?_⟩ <;> rw [heq]
  · obtain ⟨flow1, hfill, hload, docs0, hrun, hbr2⟩ :=
      ingestFlowPhase_ret_ok_inv env s1 { st with Datasets := datasets1 } datasetID filename content opts ft r
        (by rw [← heq]; exact h)
    rcases hbr2 with ⟨hempty, hrnone, heq2⟩ | ⟨hne, heq2⟩
    · left
      refine ⟨hrnone, ?_, ?_⟩ <;> rw [heq, heq2]
    · right
      obtain ⟨vs2, hrem, hcol⟩ :=
        ingestCommitPhase_ret_ok_inv env s1 { st with Datasets := datasets1 } datasetID filename opts docs0 r
          (by rw [← heq2, ← heq]; exact h)
      have hcommit := ingestCommitPhase_ok env s1 { st with Datasets := datasets1 } datasetID filename opts docs0 vs2 hrem hcol
      have houtcome : Datastore.Ingest env s st datasetID filename content opts =
          ingestCommitPhase env s1 { st with Datasets := datasets1 } datasetID filename opts docs0 := by
        rw [heq, heq2]
      set docs2 := (if opts.ReuseEmbeddings then
          reuseEmbeddings s1.EmbeddingModelProvider.Model { Datasets := datasets1, Files := st.Files, VS := vs2 } docs0
        else docs0) with hdocs2
      have hmapid : docs2.map (fun x => x.ID) = docs0.map (fun x => x.ID) := by
        rw [hdocs2]
        by_cases hr2 : opts.ReuseEmbeddings
        · rw [if_pos hr2]
          exact reuseEmbeddings_map_id _ _ docs0
        · rw [if_neg hr2]
      have hmapcontent : docs2.map (fun x => x.Content) = docs0.map (fun x => x.Content) := by
        rw [hdocs2]
        by_cases hr2 : opts.ReuseEmbeddings
        · rw [if_pos hr2]
          exact reuseEmbeddings_map_content _ _ docs0
        · rw [if_neg hr2]
      have hr : r = some (docs0.map (fun x => x.ID)) := by
        have h5 := h
        rw [houtcome, hcommit] at h5
        simp only at h5
        rw [← hmapid]
        exact (by simpa using h5.symm)
      have hmetaAbs : ∀ x ∈ docs2, metaLookup x.Metadata "absPath" = some (.str opts.FileMeta.AbsolutePath) := by
        intro x hx
        have hkeys := runResolvedFlow_metadata_keys flow1 filename opts.FileMeta
          s1.EmbeddingModelProvider.Model opts.ExtraMetadata content docs0 hrun
        rw [hdocs2] at hx
        by_cases hr2 : opts.ReuseEmbeddings
        · rw [if_pos hr2] at hx
          obtain ⟨d0, hd0, _, _, hm⟩ := reuseEmbeddings_mem_proj _ _ docs0 x hx
          rw [hm]
          exact (hkeys d0 hd0).2.1
        · rw [if_neg hr2] at hx
          exact (hkeys x hx).2.1
      have hrowsEq : (Datastore.Ingest env s st datasetID filename content opts).state.VS.Rows =
          st.VS.Rows.filter (fun row =>
            !(row.Collection == datasetID && whereMatch [("absPath", opts.FileMeta.AbsolutePath)] row.Doc))
          ++ docs2.map (fun x =>
            (⟨datasetID, { x with Embedding :=
              if x.Embedding.isEmpty then env.embed s1.EmbeddingModelProvider.Model x.Content
              else x.Embedding }⟩ : VSRow)) := by
        rw [houtcome, hcommit]
        simp only
        rw [(removeDocument_ok_where st.VS datasetID opts.FileMeta.AbsolutePath vs2 hrem).2]
      have hprops : ∀ row ∈ docs2.map (fun x =>
          (⟨datasetID, { x with Embedding :=
            if x.Embedding.isEmpty then env.embed s1.EmbeddingModelProvider.Model x.Content
            else x.Embedding }⟩ : VSRow)),
          (row.Collection == datasetID) = true
          ∧ metaText row.Doc.Metadata "absPath" = some opts.FileMeta.AbsolutePath := by
        intro row hrow
        obtain ⟨x, hx, hrx⟩ := List.mem_map.mp hrow
        rw [← hrx]
        refine ⟨by simp, ?_⟩
        show metaText x.Metadata "absPath" = some opts.FileMeta.AbsolutePath
        rw [metaText, hmetaAbs x hx]
        rfl
      have hcontent : (rowsForPath (Datastore.Ingest env s st datasetID filename content opts).state.VS
            datasetID opts.FileMeta.AbsolutePath).map (fun row => row.Doc.Content)
          = docs0.map (fun x => x.Content) := by
        rw [rowsForPath_eq_newRows (Datastore.Ingest env s st datasetID filename content opts).state.VS
          st.VS.Rows _ datasetID opts.FileMeta.AbsolutePath hrowsEq hprops]
        rw [List.map_map]
        have hcomp : ((fun row : VSRow => row.Doc.Content) ∘ (fun x : Document =>
            (⟨datasetID, { x with Embedding :=
              if x.Embedding.isEmpty then env.embed s1.EmbeddingModelProvider.Model x.Content
              else x.Embedding }⟩ : VSRow))) = (fun x : Document => x.Content) := by
          funext x
          rfl
        rw [hcomp, hmapcontent]
      refine ⟨ds, datasets1, ds1, s1, ft, flow1, docs0, vs2,
        hds, hbind, hft, hfill, hrun, hne, hrem, hcol, ?_, ?_, ?_, hr, ?_, hrowsEq, ?_, hprops, hcontent⟩
      · rw [houtcome, hcommit]
      · rw [houtcome, hcommit]
      · rw [houtcome, hcommit]
        simp only
        exact (removeDocument_ok_where st.VS datasetID opts.FileMeta.AbsolutePath vs2 hrem).1
      · rw [houtcome, hcommit]
        simp only
        rw [hmapid]
      · rw [houtcome, hcommit]

end Knowledge

namespace Knowledge

theorem updateDataset_find (datasets : List Dataset) (id : String) (ds nds : Dataset)
    (h : datasets.find? (fun d => d.ID == id) = some ds) (hid : nds.ID = id) :
    (updateDataset datasets nds).find? (fun d => d.ID == id) = some nds := by
  induction datasets with
  | nil => simp at h
  | cons x rest ih =>
    rw [updateDataset, List.map_cons]
    rw [List.find?_cons] at h
    cases hx : (x.ID == id) with
    | true =>
      have hxn : (x.ID == nds.ID) = true := by rw [hid]; exact hx
      rw [if_pos hxn, List.find?_cons]
      have hn : (nds.ID == id) = true := by rw [hid]; simp
      rw [hn]
    | false =>
      rw [hx] at h
      have hxn : (x.ID == nds.ID) = false := by rw [hid]; exact hx
      rw [if_neg (by simp [hxn]), List.find?_cons, hx]
      exact ih h

theorem bindEmbeddingConfig_fst (env : Env) (s : Datastore) (datasets : List Dataset)
    (datasetID : String) (ds : Dataset) :
    (bindEmbeddingConfig env s datasets datasetID ds).1 =
      (match ds.EmbeddingsProviderConfig with
       | none => updateDataset datasets
           ⟨datasetID, some ⟨s.EmbeddingModelProvider.Name, s.EmbeddingModelProvider.Model⟩⟩
       | some _ => datasets) := by
  rw [bindEmbeddingConfig]
  cases hcfg : ds.EmbeddingsProviderConfig <;> simp only [hcfg] <;> (repeat' split) <;> rfl

theorem bindEmbeddingConfig_snd (env : Env) (s : Datastore) (datasets : List Dataset)
    (datasetID : String) (ds : Dataset) :
    (bindEmbeddingConfig env s datasets datasetID ds).2.1 =
      (match ds.EmbeddingsProviderConfig with
       | none => (⟨datasetID,
           some ⟨s.EmbeddingModelProvider.Name, s.EmbeddingModelProvider.Model⟩⟩ : Dataset)
       | some _ => ds) := by
  rw [bindEmbeddingConfig]
  cases hcfg : ds.EmbeddingsProviderConfig <;> simp only [hcfg] <;> (repeat' split) <;> rfl

theorem bindEmbeddingConfig_find (env : Env) (s : Datastore) (datasets : List Dataset)
    (datasetID : String) (ds : Dataset) (datasets1 : List Dataset) (ds1 : Dataset)
    (rr : Except GoErr Datastore)
    (hds : datasets.find? (fun d => d.ID == datasetID) = some ds)
    (h : bindEmbeddingConfig env s datasets datasetID ds = (datasets1, ds1, rr)) :
    datasets1.find? (fun d => d.ID == datasetID) = some ds1 := by
  have h1 : datasets1 = (bindEmbeddingConfig env s datasets datasetID ds).1 := by rw [h]
  have h2 : ds1 = (bindEmbeddingConfig env s datasets datasetID ds).2.1 := by rw [h]
  rw [h1, h2, bindEmbeddingConfig_fst, bindEmbeddingConfig_snd]
  cases hcfg : ds.EmbeddingsProviderConfig with
  | some cfg => simp only [hcfg]; exact hds
  | none =>
    simp only [hcfg]
    exact updateDataset_find datasets datasetID ds _ hds rfl

theorem bindEmbeddingConfig_on_bound (env2 : Env) (s1 : Datastore) (datasets2 : List Dataset)
    (datasetID : String) (ds1 : Dataset) (cfg : EmbeddingConfig)
    (hcfg : ds1.EmbeddingsProviderConfig = some cfg)
    (hmodel : s1.EmbeddingModelProvider.Model = cfg.Model ∨ env2.preferNewModel = true)
    (hstrictok : (env2.strictCheck &&
      !(env2.requiredFieldsMatch
          ⟨s1.EmbeddingModelProvider.Name, s1.EmbeddingModelProvider.Model⟩
          ⟨cfg.ProviderType, cfg.Model⟩)) = false) :
    bindEmbeddingConfig env2 s1 datasets2 datasetID ds1 = (datasets2, ds1, .ok s1) := by
  rw [bindEmbeddingConfig]
  simp only [hcfg]
  have hs2 : (if s1.EmbeddingModelProvider.Model != cfg.Model && !env2.preferNewModel then
      ({ s1 with EmbeddingModelProvider :=
        { s1.EmbeddingModelProvider with Model := cfg.Model } } : Datastore)
    else s1) = s1 := by
    rcases hmodel with hm | hp
    · rw [if_neg (by simp [hm])]
    · rw [if_neg (by simp [hp])]
  rw [hs2, if_neg (by simp [hstrictok])]

theorem bindEmbeddingConfig_fixpoint (env env2 : Env) (s s1 : Datastore)
    (datasets datasets2 : List Dataset) (datasetID : String) (ds ds1 : Dataset)
    (datasets1 : List Dataset)
    (hpref : env2.preferNewModel = env.preferNewModel)
    (hstrict : env2.strictCheck = env.strictCheck)
    (hreq : env2.requiredFieldsMatch = env.requiredFieldsMatch)
    (h : bindEmbeddingConfig env s datasets datasetID ds = (datasets1, ds1, .ok s1)) :
    bindEmbeddingConfig env2 s1 datasets2 datasetID ds1 = (datasets2, ds1, .ok s1) := by
  rw [bindEmbeddingConfig] at h
  cases hcfg : ds.EmbeddingsProviderConfig with
  | none =>
    simp only [hcfg, bne_self_eq_false, Bool.false_and, Bool.false_eq_true, if_false] at h
    split at h
    · simp at h
    · rename_i hC
      simp only [Prod.mk.injEq] at h
      obtain ⟨h1, h2, h3⟩ := h
      have hs1 : s = s1 := by simpa using h3
      apply bindEmbeddingConfig_on_bound env2 s1 datasets2 datasetID ds1
        ⟨s.EmbeddingModelProvider.Name, s.EmbeddingModelProvider.Model⟩
      · rw [← h2]
      · left
        rw [← hs1]
      · rw [← hs1, hstrict, hreq]
        simpa using hC
  | some cfg =>
    simp only [hcfg] at h
    by_cases hmm : (s.EmbeddingModelProvider.Model != cfg.Model && !env.preferNewModel) = true
    · rw [if_pos hmm] at h
      split at h
      · simp at h
      · rename_i hC
        simp only [Prod.mk.injEq] at h
        obtain ⟨h1, h2, h3⟩ := h
        have hs1 : ({ s with EmbeddingModelProvider :=
            { s.EmbeddingModelProvider with Model := cfg.Model } } : Datastore) = s1 := by
          simpa using h3
        apply bindEmbeddingConfig_on_bound env2 s1 datasets2 datasetID ds1 cfg
        · rw [← h2, hcfg]
        · left
          rw [← hs1]
        · rw [← hs1, hstrict, hreq]
          simpa using hC
    · rw [if_neg hmm] at h
      split at h
      · simp at h
      · rename_i hC
        simp only [Prod.mk.injEq] at h
        obtain ⟨h1, h2, h3⟩ := h
        have hs1 : s = s1 := by simpa using h3
        apply bindEmbeddingConfig_on_bound env2 s1 datasets2 datasetID ds1 cfg
        · rw [← h2, hcfg]
        · rw [Bool.and_eq_true, not_and_or] at hmm
          rcases hmm with hm | hp
          · left
            rw [← hs1]
            simpa using hm
          · right
            rw [hpref]
            simpa using hp
        · rw [← hs1, hstrict, hreq]
          simpa using hC

end Knowledge

namespace Knowledge

/-- C2: a successful Ingest first deletes every stored row of the
dataset whose absPath metadata equals the ingested file's absolute path
and then commits the new chunks (replace, not duplicate); re-running
Ingest with the same inputs against the resulting state (under the same
collaborators, any fresh file ID) leaves the dataset's chunk texts for
that path identical and its document count for that path unchanged. -/
theorem ingest_reingest_idempotent (env env2 : Env) (s : Datastore) (st : SysState)
    (datasetID filename content : String) (opts : IngestOpts)
    (O1 O2 : IngestOutcome) (ids1 : List String) (r2 : Option (List String))
    (hO1 : O1 = Datastore.Ingest env s st datasetID filename content opts)
    (hO2 : O2 = Datastore.Ingest env2 O1.store O1.state datasetID filename content opts)
    (hembed : env2.embed = env.embed)
    (hgetft : env2.getFiletype = env.getFiletype)
    (hfilld : env2.fillDefaults = env.fillDefaults)
    (hfuncs : env2.isDuplicateFuncs = env.isDuplicateFuncs)
    (hreq : env2.requiredFieldsMatch = env.requiredFieldsMatch)
    (hpref : env2.preferNewModel = env.preferNewModel)
    (hstrictq : env2.strictCheck = env.strictCheck)
    (h1 : O1.ret = .ok (some ids1))
    (h2 : O2.ret = .ok r2) :
    (∃ newRows, O1.state.VS.Rows =
        st.VS.Rows.filter (fun row => !(row.Collection == datasetID
          && whereMatch [("absPath", opts.FileMeta.AbsolutePath)] row.Doc)) ++ newRows
      ∧ ∀ row ∈ newRows, (row.Collection == datasetID) = true
          ∧ metaText row.Doc.Metadata "absPath" = some opts.FileMeta.AbsolutePath)
    ∧ (rowsForPath O2.state.VS datasetID opts.FileMeta.AbsolutePath).map (fun row => row.Doc.Content)
        = (rowsForPath O1.state.VS datasetID opts.FileMeta.AbsolutePath).map (fun row => row.Doc.Content)
    ∧ (rowsForPath O2.state.VS datasetID opts.FileMeta.AbsolutePath).length
        = (rowsForPath O1.state.VS datasetID opts.FileMeta.AbsolutePath).length := by
  subst hO1
  subst hO2
  rcases ingest_ok_shape env s st datasetID filename content opts (some ids1) h1 with
    ⟨habs, -, -⟩ | ⟨ds, datasets1, ds1, s1, ft, flow1, docs0, vs2, hds, hbind, hft, hfill,
      hrun, hne, hrem, hcol, hstore1, hdatasets1, hcols1, hr1, hfiles1, hrowsEq1, hembedded1,
      hprops1, hcontent1⟩
  · exact absurd habs (by simp)
  have hconj1 : ∃ newRows,
      (Datastore.Ingest env s st datasetID filename content opts).state.VS.Rows =
        st.VS.Rows.filter (fun row => !(row.Collection == datasetID
          && whereMatch [("absPath", opts.FileMeta.AbsolutePath)] row.Doc)) ++ newRows
      ∧ ∀ row ∈ newRows, (row.Collection == datasetID) = true
          ∧ metaText row.Doc.Metadata "absPath" = some opts.FileMeta.AbsolutePath :=
    ⟨_, hrowsEq1, hprops1⟩
  rcases ingest_ok_shape env2 (Datastore.Ingest env s st datasetID filename content opts).store
      (Datastore.Ingest env s st datasetID filename content opts).state
      datasetID filename content opts r2 h2 with
    ⟨-, hvs2, -⟩ | ⟨ds2, datasets2, ds2b, s2, ft2, flow12, docs02, vs22, hds2, hbind2, hft2,
      hfill2, hrun2, hne2, hrem2, hcol2, hstore2, hdatasets2, hcols2, hr2x, hfiles2, hrowsEq2,
      hembedded2, hprops2, hcontent2⟩
  · refine ⟨hconj1, ?_, ?_⟩ <;> rw [hvs2]
  · -- match the second run's pipeline with the first run's
    have hfind1 : datasets1.find? (fun d => d.ID == datasetID) = some ds1 :=
      bindEmbeddingConfig_find env s st.Datasets datasetID ds datasets1 ds1 (.ok s1) hds hbind
    rw [hdatasets1] at hds2
    have hds2eq : ds2 = ds1 := by
      rw [hfind1] at hds2
      exact (by simpa using hds2.symm)
    have hfix := bindEmbeddingConfig_fixpoint env env2 s s1 st.Datasets
      (Datastore.Ingest env s st datasetID filename content opts).state.Datasets
      datasetID ds ds1 datasets1 hpref hstrictq hreq hbind
    rw [hstore1, hds2eq] at hbind2
    rw [hbind2] at hfix
    simp only [Prod.mk.injEq] at hfix
    have hs2eq : s2 = s1 := by
      have := hfix.2.2
      simpa using this
    have hft2eq : ft2 = ft := by
      rw [hgetft, hft] at hft2
      exact (by simpa using hft2.symm)
    have hflow2eq : flow12 = flow1 := by
      rw [hfilld, hft2eq, hfill] at hfill2
      exact (by simpa using hfill2.symm)
    have hdocs02eq : docs02 = docs0 := by
      rw [hflow2eq, hs2eq, hrun] at hrun2
      exact (by simpa using hrun2.symm)
    refine ⟨hconj1, ?_, ?_⟩
    · rw [hcontent2, hdocs02eq, ← hcontent1]
    · have hlen := congrArg List.length (hcontent2.trans (by rw [hdocs02eq, ← hcontent1]))
      simpa using hlen
end Knowledge

namespace Knowledge

theorem reuseScan_finds (model : String) (st : SysState) :
    ∀ exDocs : List Document,
    (∀ ed ∈ exDocs, (metaLookup ed.Metadata "embeddingModel").isSome ∧ ed.Embedding ≠ []) →
    (∃ ed ∈ exDocs, metaLookup ed.Metadata "embeddingModel" = some (.str model)) →
    ∃ vec, reuseScan model st exDocs = some vec ∧ vec ≠ [] := by
  intro exDocs
  induction exDocs with
  | nil =>
    intro _ hex
    simp at hex
  | cons ed rest ih =>
    intro hall hex
    cases hmeta : metaLookup ed.Metadata "embeddingModel" with
    | none =>
      have := (hall ed (List.mem_cons_self _ _)).1
      rw [hmeta] at this
      simp at this
    | some v =>
      by_cases hv : (v == MetaValue.str model) = true
      · refine ⟨ed.Embedding, ?_, (hall ed (List.mem_cons_self _ _)).2⟩
        rw [reuseScan, hmeta]
        simp only
        rw [if_pos hv]
      · have hrec : reuseScan model st (ed :: rest) = reuseScan model st rest := by
          rw [reuseScan, hmeta]
          simp only
          rw [if_neg hv]
        rw [hrec]
        apply ih (fun x hx => hall x (List.mem_cons_of_mem _ hx))
        rcases hex with ⟨x, hx, hxm⟩
        rcases List.mem_cons.mp hx with hxe | hx2
        · subst hxe
          rw [hmeta] at hxm
          have hv2 : v = MetaValue.str model := by simpa using hxm
          exact absurd (by rw [hv2]; simp) hv
        · exact ⟨x, hx2, hxm⟩

theorem reuseOne_nonempty (model : String) (st : SysState) (d : Document)
    (hex : ∃ row ∈ st.VS.Rows, row.Doc.Content = d.Content
        ∧ metaLookup row.Doc.Metadata "embeddingModel" = some (.str model))
    (hall : ∀ row ∈ st.VS.Rows, row.Doc.Content = d.Content →
        (metaLookup row.Doc.Metadata "embeddingModel").isSome ∧ row.Doc.Embedding ≠ []) :
    (reuseOne model st d).Embedding ≠ [] := by
  have hget : st.VS.GetDocuments "" [] [d.Content] =
      .ok ((st.VS.Rows.filter (fun r =>
        whereMatch [] r.Doc && whereDocMatch [d.Content] r.Doc)).map (fun r => r.Doc)) := by
    rw [VectorStore.GetDocuments, if_pos (by rfl)]
  have h2 : ∀ ed ∈ (st.VS.Rows.filter (fun r =>
      whereMatch [] r.Doc && whereDocMatch [d.Content] r.Doc)).map (fun r => r.Doc),
      (metaLookup ed.Metadata "embeddingModel").isSome ∧ ed.Embedding ≠ [] := by
    intro ed hed
    obtain ⟨row, hrow, hrd⟩ := List.mem_map.mp hed
    have hmem := (List.mem_filter.mp hrow).1
    have hcond := (List.mem_filter.mp hrow).2
    have hcontent : row.Doc.Content = d.Content := by
      rw [Bool.and_eq_true] at hcond
      have := hcond.2
      rw [whereDocMatch] at this
      simpa using this
    rw [← hrd]
    exact hall row hmem hcontent
  have h1 : ∃ ed ∈ (st.VS.Rows.filter (fun r =>
      whereMatch [] r.Doc && whereDocMatch [d.Content] r.Doc)).map (fun r => r.Doc),
      metaLookup ed.Metadata "embeddingModel" = some (.str model) := by
    obtain ⟨row, hrow, hc, hm⟩ := hex
    refine ⟨row.Doc, List.mem_map.mpr ⟨row, List.mem_filter.mpr ⟨hrow, ?_⟩, rfl⟩, hm⟩
    rw [Bool.and_eq_true]
    refine ⟨by rw [whereMatch]; rfl, ?_⟩
    rw [whereDocMatch]
    simp [hc]
  obtain ⟨vec, hscan, hvec⟩ := reuseScan_finds model st _ h2 h1
  rw [reuseOne, reuseScanResult, hget]
  simp only
  rw [hscan]
  exact hvec

theorem reuseEmbeddings_map_icm (model : String) (st : SysState) (docs : List Document) :
    (reuseEmbeddings model st docs).map (fun d => (d.ID, d.Content, d.Metadata))
      = docs.map (fun d => (d.ID, d.Content, d.Metadata)) := by
  rw [reuseEmbeddings, List.map_map]
  apply List.map_congr_left
  intro d _
  simp only [Function.comp]
  obtain ⟨h1, h2, h3, _⟩ := reuseOne_proj model st d
  rw [h1, h2, h3]

end Knowledge

namespace Knowledge

/-- C5: with ReuseEmbeddings enabled, a chunk whose content matches a
surviving stored document carrying the configured model in its
embeddingModel metadata gets that stored vector copied and is never sent
to the embedding capability; and a reuse-enabled run commits documents
identical in IDs, contents and metadata to a reuse-disabled run, with
the same ids and index records. -/
theorem ingest_reuse_embeddings_correct :
    (∀ (env : Env) (s : Datastore) (st : SysState)
      (datasetID filename content : String) (opts : IngestOpts)
      (ids : List String) (c : String),
      opts.ReuseEmbeddings = true →
      (Datastore.Ingest env s st datasetID filename content opts).ret = .ok (some ids) →
      (∀ row ∈ st.VS.Rows, row.Doc.Content = c →
          (metaLookup row.Doc.Metadata "embeddingModel").isSome ∧ row.Doc.Embedding ≠ []) →
      (∃ row ∈ st.VS.Rows, row.Doc.Content = c
          ∧ (!(row.Collection == datasetID
              && whereMatch [("absPath", opts.FileMeta.AbsolutePath)] row.Doc)) = true
          ∧ metaLookup row.Doc.Metadata "embeddingModel" =
              some (.str (Datastore.Ingest env s st datasetID filename content opts).store.EmbeddingModelProvider.Model)) →
      c ∉ (Datastore.Ingest env s st datasetID filename content opts).embedded)
    ∧ (∀ (env : Env) (s : Datastore) (st : SysState)
      (datasetID filename content : String) (opts : IngestOpts)
      (ids ids2 : List String),
      (Datastore.Ingest env s st datasetID filename content
        { opts with ReuseEmbeddings := true }).ret = .ok (some ids) →
      (Datastore.Ingest env s st datasetID filename content
        { opts with ReuseEmbeddings := false }).ret = .ok (some ids2) →
      ids2 = ids
      ∧ (Datastore.Ingest env s st datasetID filename content
          { opts with ReuseEmbeddings := false }).state.Files =
        (Datastore.Ingest env s st datasetID filename content
          { opts with ReuseEmbeddings := true }).state.Files
      ∧ (Datastore.Ingest env s st datasetID filename content
          { opts with ReuseEmbeddings := false }).state.VS.Rows.map
            (fun row => (row.Collection, row.Doc.ID, row.Doc.Content, row.Doc.Metadata)) =
        (Datastore.Ingest env s st datasetID filename content
          { opts with ReuseEmbeddings := true }).state.VS.Rows.map
            (fun row => (row.Collection, row.Doc.ID, row.Doc.Content, row.Doc.Metadata))) := by
  constructor
  · intro env s st datasetID filename content opts ids c hreuse hok hall hex hc
    rcases ingest_ok_shape env s st datasetID filename content opts (some ids) hok with
      ⟨habs, -, -⟩ | ⟨ds, datasets1, ds1, s1, ft, flow1, docs0, vs2, hds, hbind, hft, hfill,
        hrun, hne, hrem, hcol, hstore1, hdatasets1, hcols1, hr1, hfiles1, hrowsEq1, hembedded1,
        hprops1, hcontent1⟩
    · exact absurd habs (by simp)
    rw [hembedded1, hreuse, if_pos rfl] at hc
    obtain ⟨x, hxf, hxc⟩ := List.mem_map.mp hc
    obtain ⟨hxmem, hxempty⟩ := List.mem_filter.mp hxf
    rw [reuseEmbeddings] at hxmem
    obtain ⟨d0, hd0, hx0⟩ := List.mem_map.mp hxmem
    have hd0c : d0.Content = c := by
      rw [← hxc, ← hx0]
      exact ((reuseOne_proj s1.EmbeddingModelProvider.Model _ d0).2.1).symm
    have hvs2rows : vs2.Rows = st.VS.Rows.filter (fun row =>
        !(row.Collection == datasetID && whereMatch [("absPath", opts.FileMeta.AbsolutePath)] row.Doc)) :=
      (removeDocument_ok_where st.VS datasetID opts.FileMeta.AbsolutePath vs2 hrem).2
    have hall2 : ∀ row ∈ (⟨datasets1, st.Files, vs2⟩ : SysState).VS.Rows,
        row.Doc.Content = d0.Content →
        (metaLookup row.Doc.Metadata "embeddingModel").isSome ∧ row.Doc.Embedding ≠ [] := by
      intro row hrow hct
      have hmem : row ∈ st.VS.Rows := by
        have : row ∈ vs2.Rows := hrow
        rw [hvs2rows] at this
        exact (List.mem_filter.mp this).1
      exact hall row hmem (by rw [hct, hd0c])
    have hex2 : ∃ row ∈ (⟨datasets1, st.Files, vs2⟩ : SysState).VS.Rows,
        row.Doc.Content = d0.Content
        ∧ metaLookup row.Doc.Metadata "embeddingModel" =
            some (.str s1.EmbeddingModelProvider.Model) := by
      obtain ⟨row, hrow, hct, hpred, hm⟩ := hex
      refine ⟨row, ?_, by rw [hct, hd0c], ?_⟩
      · show row ∈ vs2.Rows
        rw [hvs2rows]
        exact List.mem_filter.mpr ⟨hrow, hpred⟩
      · rw [hstore1] at hm
        exact hm
    have hnonempty := reuseOne_nonempty s1.EmbeddingModelProvider.Model
      ⟨datasets1, st.Files, vs2⟩ d0 hex2 hall2
    rw [hx0] at hnonempty
    rw [List.isEmpty_iff] at hxempty
    exact hnonempty hxempty
  · intro env s st datasetID filename content opts ids ids2 h1 h2
    rcases ingest_ok_shape env s st datasetID filename content
        { opts with ReuseEmbeddings := true } (some ids) h1 with
      ⟨habs, -, -⟩ | ⟨ds, datasets1, ds1, s1, ft, flow1, docs0, vs2, hds, hbind, hft, hfill,
        hrun, hne, hrem, hcol, hstore1, hdatasets1, hcols1, hr1, hfiles1, hrowsEq1, hembedded1,
        hprops1, hcontent1⟩
    · exact absurd habs (by simp)
    rcases ingest_ok_shape env s st datasetID filename content
        { opts with ReuseEmbeddings := false } (some ids2) h2 with
      ⟨habs, -, -⟩ | ⟨dsB, datasets1B, ds1B, s1B, ftB, flow1B, docs0B, vs2B, hdsB, hbindB, hftB,
        hfillB, hrunB, hneB, hremB, hcolB, hstore1B, hdatasets1B, hcols1B, hr1B, hfiles1B, hrowsEq1B,
        hembedded1B, hprops1B, hcontent1B⟩
    · exact absurd habs (by simp)
    simp only at hds hbind hft hfill hrun hrem hr1 hfiles1 hrowsEq1
    simp only at hdsB hbindB hftB hfillB hrunB hremB hr1B hfiles1B hrowsEq1B
    have hdseq : dsB = ds := by
      rw [hds] at hdsB
      exact (by simpa using hdsB.symm)
    rw [hdseq, hbind] at hbindB
    simp only [Prod.mk.injEq] at hbindB
    have hdatasetsEq : datasets1B = datasets1 := hbindB.1.symm
    have hs1eq : s1B = s1 := by
      have := hbindB.2.2
      simpa using this.symm
    have hfteq : ftB = ft := by
      rw [hft] at hftB
      exact (by simpa using hftB.symm)
    have hfloweq : flow1B = flow1 := by
      rw [hfteq, hfill] at hfillB
      exact (by simpa using hfillB.symm)
    have hdocseq : docs0B = docs0 := by
      rw [hfloweq, hs1eq, hrun] at hrunB
      exact (by simpa using hrunB.symm)
    have hvs2eq : vs2B = vs2 := by
      rw [hrem] at hremB
      exact (by simpa using hremB.symm)
    refine ⟨?_, ?_, ?_⟩
    · have hidsA : some ids = some (docs0.map (fun x => x.ID)) := hr1
      have hidsB : some ids2 = some (docs0B.map (fun x => x.ID)) := hr1B
      rw [hdocseq] at hidsB
      rw [← hidsA] at hidsB
      simpa using hidsB
    · rw [hfiles1, hfiles1B, hdocseq]
    · rw [hrowsEq1, hrowsEq1B]
      rw [List.map_append, List.map_append]
      congr 1
      rw [List.map_map, List.map_map]
      have hcompA : ((fun row : VSRow => (row.Collection, row.Doc.ID, row.Doc.Content, row.Doc.Metadata)) ∘
          (fun x : Document => (⟨datasetID, { x with Embedding :=
            (if x.Embedding.isEmpty then env.embed s1.EmbeddingModelProvider.Model x.Content else x.Embedding) }⟩ : VSRow))) =
          (fun x : Document => (datasetID, x.ID, x.Content, x.Metadata)) := by
        funext x
        rfl
      have hcompB : ((fun row : VSRow => (row.Collection, row.Doc.ID, row.Doc.Content, row.Doc.Metadata)) ∘
          (fun x : Document => (⟨datasetID, { x with Embedding :=
            (if x.Embedding.isEmpty then env.embed s1B.EmbeddingModelProvider.Model x.Content else x.Embedding) }⟩ : VSRow))) =
          (fun x : Document => (datasetID, x.ID, x.Content, x.Metadata)) := by
        funext x
        rfl
      rw [hcompA, hcompB, hdocseq, hdatasetsEq, hvs2eq]
      have hsplitf : (fun x : Document => (datasetID, x.ID, x.Content, x.Metadata)) =
          ((fun t : String × String × Metadata => (datasetID, t.1, t.2.1, t.2.2)) ∘
            (fun x : Document => (x.ID, x.Content, x.Metadata))) := by
        funext x
        rfl
      rw [hsplitf, ← List.map_map, ← List.map_map]
      simp only [Bool.false_eq_true, if_false, if_true]
      rw [reuseEmbeddings_map_icm]

/-- Witness for the metadata and index invariant: one successful ingest at
the fixtures commits one file whose document indices are 0..0 and whose
rows carry the four metadata keys. -/
theorem ingest_metadata_and_index_invariant_witness :
    (∃ newFile : DBFile,
      (Datastore.Ingest envLoad storeA stA "d" "a.txt" "abc" optsPlain).state.Files =
        stA.Files ++ [newFile]
      ∧ newFile.Documents.map (fun d => d.Index) = List.range (["c0"] : List String).length
      ∧ newFile.Documents.map (fun d => d.ID) = ["c0"])
    ∧ (∃ newRows : List VSRow,
      (Datastore.Ingest envLoad storeA stA "d" "a.txt" "abc" optsPlain).state.VS.Rows =
        stA.VS.Rows.filter (fun r =>
          !(r.Collection == "d" && whereMatch [("absPath", optsPlain.FileMeta.AbsolutePath)] r.Doc))
        ++ newRows
      ∧ newRows.length = (["c0"] : List String).length
      ∧ ∀ row ∈ newRows,
          row.Collection = "d"
          ∧ metaLookup row.Doc.Metadata "filename" = some (.str "a.txt")
          ∧ metaLookup row.Doc.Metadata "absPath" = some (.str optsPlain.FileMeta.AbsolutePath)
          ∧ metaLookup row.Doc.Metadata "fileSize" = some (.int optsPlain.FileMeta.Size)
          ∧ metaLookup row.Doc.Metadata "embeddingModel" =
              some (.str (Datastore.Ingest envLoad storeA stA "d" "a.txt" "abc"
                optsPlain).store.EmbeddingModelProvider.Model)) :=
  ingest_metadata_and_index_invariant envLoad storeA stA "d" "a.txt" "abc" optsPlain
    ["c0"] (by rfl)

/-- Witness for re-ingest idempotence: ingesting the fixture file twice in a
row keeps the per-path chunk contents and count stable. -/
theorem ingest_reingest_idempotent_witness :
    (∃ newRows, (Datastore.Ingest envLoad storeA stA "d" "a.txt" "abc" optsPlain).state.VS.Rows =
        stA.VS.Rows.filter (fun row => !(row.Collection == "d"
          && whereMatch [("absPath", optsPlain.FileMeta.AbsolutePath)] row.Doc)) ++ newRows
      ∧ ∀ row ∈ newRows, (row.Collection == "d") = true
          ∧ metaText row.Doc.Metadata "absPath" = some optsPlain.FileMeta.AbsolutePath)
    ∧ (rowsForPath (Datastore.Ingest envLoad
          (Datastore.Ingest envLoad storeA stA "d" "a.txt" "abc" optsPlain).store
          (Datastore.Ingest envLoad storeA stA "d" "a.txt" "abc" optsPlain).state
          "d" "a.txt" "abc" optsPlain).state.VS "d" optsPlain.FileMeta.AbsolutePath).map
            (fun row => row.Doc.Content)
        = (rowsForPath (Datastore.Ingest envLoad storeA stA "d" "a.txt" "abc" optsPlain).state.VS
            "d" optsPlain.FileMeta.AbsolutePath).map (fun row => row.Doc.Content)
    ∧ (rowsForPath (Datastore.Ingest envLoad
          (Datastore.Ingest envLoad storeA stA "d" "a.txt" "abc" optsPlain).store
          (Datastore.Ingest envLoad storeA stA "d" "a.txt" "abc" optsPlain).state
          "d" "a.txt" "abc" optsPlain).state.VS "d" optsPlain.FileMeta.AbsolutePath).length
        = (rowsForPath (Datastore.Ingest envLoad storeA stA "d" "a.txt" "abc" optsPlain).state.VS
            "d" optsPlain.FileMeta.AbsolutePath).length :=
  ingest_reingest_idempotent envLoad envLoad storeA stA "d" "a.txt" "abc" optsPlain
    (Datastore.Ingest envLoad storeA stA "d" "a.txt" "abc" optsPlain)
    (Datastore.Ingest envLoad
      (Datastore.Ingest envLoad storeA stA "d" "a.txt" "abc" optsPlain).store
      (Datastore.Ingest envLoad storeA stA "d" "a.txt" "abc" optsPlain).state
      "d" "a.txt" "abc" optsPlain)
    ["c0"] (some ["c0"]) rfl rfl rfl rfl rfl rfl rfl rfl rfl (by rfl) (by rfl)

/-- Witness for embedding reuse: with a content-identical row stored under
the configured model and reuse enabled, the fixture ingest never invokes the
embedding capability on that content. -/
theorem ingest_reuse_embeddings_correct_witness :
    "abc" ∉ (Datastore.Ingest envLoad storeA stB "d" "a.txt" "abc" optsReuse).embedded :=
  ingest_reuse_embeddings_correct.1 envLoad storeA stB "d" "a.txt" "abc" optsReuse
    ["c0"] "abc" rfl (by rfl) (by decide)
    ⟨rowB, List.mem_cons_self rowB [], rfl, rfl, by rfl⟩

end Knowledge
